import Mathlib

/-!
Verification development for the talk2me-ui audiobook markup-to-timeline
compiler: a shallow embedding of src/talk2me_ui/markup_parser.py
(triple-brace markup parsing) and of the scheduling/mixing helpers in
src/talk2me_ui/main.py (process_background_audio_change,
create_looped_segment, generate_voice_audio, the section loop of
process_audiobook), together with theorems settling the behavioural
claims about them.

Modelling conventions:
* Python strings are modelled as `List Char` (ASCII inputs); `String`
  wrappers appear at the API boundary.
* Python floats are modelled as exact rationals `ℚ`; all the values the
  claims exercise are exactly representable, and no claim depends on
  binary rounding.
* Audio buffers (pydub `AudioSegment`) are modelled by the `Seg` tree of
  the operations the code performs on them (loaded asset, empty,
  concatenation, millisecond slicing), with `Seg.durMs` the duration in
  milliseconds.
* External collaborators (TTS backend, sound/background asset store) are
  parameters: resolver functions returning `Option Seg`.
* Loops that scan strings advance by at least one character per step and
  are written with an explicit fuel argument (initialised to
  `length + 1`, which provably cannot run out) so that every definition
  is structurally recursive and kernel-computable.
-/

/-- Whitespace characters recognised by Python's `str.strip()` (ASCII part). -/
def isPySpace (c : Char) : Bool :=
  c = ' ' || c = '\t' || c = '\n' || c = '\r' || c = '\x0b' || c = '\x0c'

/-- Model of Python `str.strip()`: drop leading and trailing whitespace. -/
def pyStrip (l : List Char) : List Char :=
  ((l.dropWhile isPySpace).reverse.dropWhile isPySpace).reverse

/-- Model of Python `str.lower()` (ASCII inputs). -/
def pyLower (l : List Char) : List Char :=
  l.map Char.toLower

/-- Model of Python `s.split(sep, 1)`: split at the first occurrence of
`sep`, returning `none` when `sep` does not occur. -/
def splitOnce (sep : Char) : List Char → Option (List Char × List Char)
  | [] => none
  | c :: t =>
    if c = sep then some ([], t)
    else (splitOnce sep t).map (fun p => (c :: p.1, p.2))

/-- Characters matched by the regex class `\w` (ASCII inputs). -/
def isWordChar (c : Char) : Bool :=
  c.isAlpha || c.isDigit || c = '_'

/-- Numeric value of a digit string (most significant first). -/
def digitsVal (l : List Char) : ℕ :=
  l.foldl (fun a c => 10 * a + (c.toNat - 48)) 0

/-- Powers of ten as integers. -/
def intTenPow : ℕ → ℤ
  | 0 => 1
  | n + 1 => 10 * intTenPow n

/-- Exponent suffix of a Python float literal: either nothing, or
`e`/`E`, an optional sign and a nonempty digit string ending the input. -/
def pyFloatExp : List Char → Option ℤ
  | [] => some 0
  | c :: t =>
    if c = 'e' || c = 'E' then
      let (sgn, t1) : ℤ × List Char :=
        match t with
        | '+' :: r => (1, r)
        | '-' :: r => (-1, r)
        | _ => (1, t)
      let d := t1.takeWhile Char.isDigit
      if d = [] || t1.drop d.length ≠ [] then none
      else some (sgn * (digitsVal d : ℤ))
    else none

/-- The rational `mantissa * 10 ^ e / 10 ^ fracDigits`, built with a
single reducible `Rat.divInt`. -/
def ratScale10 (mantissa : ℤ) (fracDigits : ℕ) : ℤ → ℚ
  | .ofNat n => Rat.divInt (mantissa * intTenPow n) (intTenPow fracDigits)
  | .negSucc n => Rat.divInt mantissa (intTenPow fracDigits * intTenPow (n + 1))

/-- Model of Python's `float(val)` on decimal literals: surrounding
whitespace, an optional sign, then `digits`, `digits.digits?` or
`.digits`, with an optional exponent. The result is the exact rational
value of the literal (`none` models `ValueError`). The `inf`/`nan` forms
and PEP 515 digit underscores are not modelled; no claim exercises them. -/
def pyFloat (s : List Char) : Option ℚ :=
  let t := pyStrip s
  let (sgn, t1) : ℤ × List Char :=
    match t with
    | '+' :: r => (1, r)
    | '-' :: r => (-1, r)
    | _ => (1, t)
  let d1 := t1.takeWhile Char.isDigit
  let r1 := t1.drop d1.length
  match r1 with
  | '.' :: r2 =>
    let d2 := r2.takeWhile Char.isDigit
    let r3 := r2.drop d2.length
    if d1 = [] && d2 = [] then none
    else
      (pyFloatExp r3).map fun e =>
        ratScale10 (sgn * ((digitsVal d1 : ℤ) * intTenPow d2.length + (digitsVal d2 : ℤ)))
          d2.length e
  | _ =>
    if d1 = [] then none
    else (pyFloatExp r1).map fun e => ratScale10 (sgn * (digitsVal d1 : ℤ)) 0 e

/-- Model of Python `int(x)` on a float: truncation toward zero
(`num.tdiv den` is exactly the integer part of the fraction, rounded
toward zero). -/
def pyInt (q : ℚ) : ℤ :=
  Int.tdiv q.num q.den

/-- Kernel-computable minimum on `ℚ` (equal to `min`). -/
def ratMin (a b : ℚ) : ℚ := if a ≤ b then a else b

/-- Kernel-computable maximum on `ℚ` (equal to `max`). -/
def ratMax (a b : ℚ) : ℚ := if a ≤ b then b else a

/-- Kernel-computable addition on `ℚ` (equal to `+`, see `qAdd_eq`;
the library addition is `@[irreducible]`, so the model uses this
reducible form to keep concrete runs decidable). -/
def qAdd (a b : ℚ) : ℚ :=
  Rat.divInt (a.num * b.den + b.num * a.den) (a.den * b.den)

/-- Kernel-computable subtraction on `ℚ` (equal to `-`, see `qSub_eq`). -/
def qSub (a b : ℚ) : ℚ :=
  Rat.divInt (a.num * b.den - b.num * a.den) (a.den * b.den)

/-- Kernel-computable multiplication of a rational by an integer
(equal to `a * n`, see `qMulInt_eq`). -/
def qMulInt (a : ℚ) (n : ℤ) : ℚ :=
  Rat.divInt (a.num * n) a.den

/-- Kernel-computable division of a rational by an integer (equal to
`a / n`, see `qDivInt_eq`). -/
def qDivInt (a : ℚ) (n : ℤ) : ℚ :=
  Rat.divInt a.num (a.den * n)

@[simp]
theorem qAdd_eq (a b : ℚ) : qAdd a b = a + b := by
  rw [qAdd, Rat.add_def]
  simp [Rat.normalize_eq_mkRat, Rat.mkRat_eq_divInt]

@[simp]
theorem qSub_eq (a b : ℚ) : qSub a b = a - b := by
  rw [qSub, Rat.sub_def]
  simp [Rat.normalize_eq_mkRat, Rat.mkRat_eq_divInt]

@[simp]
theorem qMulInt_eq (a : ℚ) (n : ℤ) : qMulInt a n = a * (n : ℚ) := by
  rw [qMulInt, Rat.divInt_eq_div]
  push_cast
  conv_rhs => rw [← Rat.num_div_den a]
  ring

@[simp]
theorem qDivInt_eq (a : ℚ) (n : ℤ) : qDivInt a n = a / (n : ℚ) := by
  rw [qDivInt, Rat.divInt_eq_div]
  push_cast
  conv_rhs => rw [← Rat.num_div_den a]
  ring

@[simp]
theorem ratMin_eq (a b : ℚ) : ratMin a b = min a b := by
  simp [ratMin, min_def]

@[simp]
theorem ratMax_eq (a b : ℚ) : ratMax a b = max a b := by
  simp [ratMax, max_def]

/-- Values stored in a parsed-directive dictionary: numbers (from the
try-float coercion), strings, booleans (only as defaults such as the
`.get("loop", True)` fallback), and `None`. -/
inductive PyVal where
  | pyNum (q : ℚ)
  | pyStr (s : String)
  | pyBool (b : Bool)
  | pyNone
  deriving DecidableEq, Repr

/-- Python truthiness of a `PyVal` (`0`, `""`, `False`, `None` are falsy). -/
def pyTruthy : PyVal → Bool
  | .pyNum q => decide (q ≠ 0)
  | .pyStr s => decide (s ≠ "")
  | .pyBool b => b
  | .pyNone => false

/-- A Python dict with string keys, as an association list in insertion
order with unique keys (maintained by `dictInsert`). -/
abbrev PyDict : Type := List (String × PyVal)

/-- Model of `d[k] = v` on a Python dict: overwrite in place, else append. -/
def dictInsert : PyDict → String → PyVal → PyDict
  | [], k, v => [(k, v)]
  | (k0, v0) :: rest, k, v =>
    if k0 = k then (k0, v) :: rest else (k0, v0) :: dictInsert rest k v

/-- Model of `d.get(k, default)` on a Python dict. -/
def dictGet : PyDict → String → PyVal → PyVal
  | [], _, dflt => dflt
  | (k0, v0) :: rest, k, dflt => if k0 = k then v0 else dictGet rest k dflt

/-- Model of `{**d, **extra}`-style merging: insert the entries of
`extra` into `d` in order. -/
def dictMerge (d : PyDict) (extra : PyDict) : PyDict :=
  extra.foldl (fun acc kv => dictInsert acc kv.1 kv.2) d

/- ===================== markup_parser.py ===================== -/

/-- Exception `AudiobookMarkupError` from markup_parser.py, with the two
raise sites distinguished: "Invalid markup format: ..." (no colon in the
directive body) and "Unknown markup command: ...". -/
inductive MarkupError where
  | invalidFormat (markup : String)
  | unknownCommand (command : String)
  deriving DecidableEq, Repr

/-- Dataclass `MarkupSection`: one narration span with the directive
state active at its start. `sound_effects` holds sound-effect config
dicts (as the tests and main.py consume them). -/
structure MarkupSection where
  text : String
  voice : Option String
  sound_effects : List PyDict
  background_audio : Option PyDict
  deriving DecidableEq, Repr

/-- Mutable parser state of `AudiobookMarkupParser`: `current_voice` and
`current_background`. -/
structure PState where
  current_voice : Option String
  current_background : Option PyDict
  deriving DecidableEq, Repr

/-- Scanner for `MARKUP_PATTERN = re.compile(r"\{\{\{([^}]+)\}\}\}")` as
used by `re.split`: returns the alternating list
`[text, body, text, body, ..., text]` of plain-text spans and directive
bodies. A match requires three opening braces, a nonempty run of
non-`}` characters, then three closing braces; anything else is scanned
past one character at a time, exactly like the regex engine trying each
start position. Fuel decreases every step; each step also consumes at
least one input character, so `length + 1` fuel never runs out. -/
def markupSplitAux : ℕ → List Char → List Char → List (List Char)
  | 0, acc, rest => [acc.reverse ++ rest]
  | _ + 1, acc, [] => [acc.reverse]
  | n + 1, acc, '\x7b' :: '\x7b' :: '\x7b' :: t =>
    let body := t.takeWhile (fun c => c ≠ '\x7d')
    let after := t.dropWhile (fun c => c ≠ '\x7d')
    if body ≠ [] && after.take 3 = ['\x7d', '\x7d', '\x7d'] then
      acc.reverse :: body :: markupSplitAux n [] (after.drop 3)
    else
      markupSplitAux n ('\x7b' :: acc) ('\x7b' :: '\x7b' :: t)
  | n + 1, acc, c :: t => markupSplitAux n (c :: acc) t

/-- Split a document on triple-brace directives (`MARKUP_PATTERN.split`). -/
def markupSplit (s : List Char) : List (List Char) :=
  markupSplitAux (s.length + 1) [] s

/-- Scanner for `OPTION_PATTERN = re.compile(r"(\w+):([^,]+)")` as used
by `finditer`: successive non-overlapping matches, each a maximal
nonempty `\w+` run, a colon, and a maximal nonempty run of non-comma
characters. Greedy matching with this pattern cannot backtrack usefully,
so maximal-run scanning is exact. Fuel as in `markupSplitAux`. -/
def optionFinditerAux : ℕ → List Char → List (List Char × List Char)
  | 0, _ => []
  | _ + 1, [] => []
  | n + 1, c :: t =>
    let w := (c :: t).takeWhile isWordChar
    if w = [] then optionFinditerAux n t
    else
      match (c :: t).drop w.length with
      | c2 :: r2 =>
        if c2 = ':' then
          let v := r2.takeWhile (fun ch => ch ≠ ',')
          if v = [] then optionFinditerAux n t
          else (w, v) :: optionFinditerAux n (r2.drop v.length)
        else optionFinditerAux n t
      | [] => optionFinditerAux n t

/-- All `OPTION_PATTERN` matches of an option string. -/
def optionFinditer (s : List Char) : List (List Char × List Char) :=
  optionFinditerAux (s.length + 1) s

/-- Coercion applied to each option value: `try: val = float(val)
except ValueError: pass`. Note that a non-numeric value is stored
exactly as matched, without trimming. -/
def coerceOption (v : List Char) : PyVal :=
  match pyFloat v with
  | some q => .pyNum q
  | none => .pyStr (String.mk v)

/-- Option-dict construction of `_parse_markup`: iterate the matches and
assign `options[key.strip()] = val`. -/
def parseOptions (optionStr : List Char) : PyDict :=
  (optionFinditer optionStr).foldl
    (fun d kv => dictInsert d (String.mk (pyStrip kv.1)) (coerceOption kv.2)) []

/-- Model of `AudiobookMarkupParser._parse_markup`: interpret one
directive body (without braces), updating the parser state or raising
`AudiobookMarkupError`. The `sfx` branch of the source is `pass`: it
changes nothing and, in particular, records the effect nowhere. -/
def parseMarkupTag (st : PState) (markup : List Char) : Except MarkupError PState :=
  match splitOnce ':' markup with
  | none => .error (.invalidFormat (String.mk markup))
  | some (p0, p1) =>
    let command := String.mk (pyLower (pyStrip p0))
    let valuePart := pyStrip p1
    let vp : List Char × PyDict :=
      if valuePart.any (fun c => c = ',') then
        match splitOnce ',' valuePart with
        | some (v, optionStr) => (pyStrip v, parseOptions optionStr)
        | none => (valuePart, [])
      else (valuePart, [])
    let value := vp.1
    let options := vp.2
    if command = "voice" then
      .ok { st with current_voice := some (String.mk value) }
    else if command = "sfx" then
      .ok st
    else if command = "bg" then
      if String.mk (pyLower value) = "stop" then
        .ok { st with current_background := none }
      else
        .ok { st with
              current_background :=
                some (dictMerge [("name", .pyStr (String.mk value))] options) }
    else .error (.unknownCommand command)

/-- Section constructor used at both emission sites of `parse`:
trimmed accumulated text, current voice, a copy of the sound-effect
accumulator, current background. -/
def mkSection (st : PState) (txt : List Char) (sfx : List PyDict) : MarkupSection :=
  { text := String.mk (pyStrip txt)
    voice := st.current_voice
    sound_effects := sfx
    background_audio := st.current_background }

/-- Body of `AudiobookMarkupParser.parse`: walk the alternating
text/markup parts, accumulating text, flushing a section (with the state
before the directive) whenever a directive follows nonempty accumulated
text, and flushing a final section after the scan. `curSfx` mirrors the
`current_sfx` accumulator of the source, which nothing ever appends to. -/
def parseParts (st : PState) (curText : List Char) (curSfx : List PyDict) :
    List (List Char) → Except MarkupError (List MarkupSection)
  | [] =>
    .ok (if pyStrip curText ≠ [] then [mkSection st curText curSfx] else [])
  | [t] =>
    let ct := curText ++ t
    .ok (if pyStrip ct ≠ [] then [mkSection st ct curSfx] else [])
  | t :: b :: rest =>
    let ct := curText ++ t
    if pyStrip ct ≠ [] then
      match parseMarkupTag st b with
      | .error e => .error e
      | .ok st2 => (parseParts st2 [] [] rest).map (fun l => mkSection st ct curSfx :: l)
    else
      match parseMarkupTag st b with
      | .error e => .error e
      | .ok st2 => parseParts st2 ct curSfx rest

/-- Model of `parse_audiobook_markup` / `AudiobookMarkupParser.parse` on
a fresh parser: empty or whitespace-only input yields `[]`; otherwise
split on the markup pattern and walk the parts. -/
def parse_audiobook_markup (text : String) : Except MarkupError (List MarkupSection) :=
  if pyStrip text.data = [] then .ok []
  else parseParts ⟨none, none⟩ [] [] (markupSplit text.data)

/- ===================== main.py audio model ===================== -/

/-- Model of a pydub `AudioSegment` by the operations the compiler
performs: a loaded asset (synthesised voice or resolved sound file) with
its duration in milliseconds, the empty segment, concatenation (`+=`),
and millisecond slicing (`segment[:n]`). -/
inductive Seg where
  | asset (id : String) (ms : ℚ)
  | empty
  | append (a b : Seg)
  | slice (s : Seg) (n : ℤ)
  deriving DecidableEq, Repr

/-- Duration of a segment in milliseconds. Slicing `s[:n]` keeps
`min (len s) n` milliseconds (for the nonnegative `n` the code uses). -/
def Seg.durMs : Seg → ℚ
  | .asset _ ms => ms
  | .empty => 0
  | .append a b => qAdd a.durMs b.durMs
  | .slice s n => ratMin s.durMs (ratMax (n : ℚ) 0)

/-- The `duration_seconds` property of pydub segments. -/
def Seg.durationSeconds (s : Seg) : ℚ := qDivInt s.durMs 1000

/-- Python truthiness of a segment (`if sfx_segment:` / `if bg_segment:`
go through `__len__`; a zero-length segment is falsy). -/
def segTruthy (s : Seg) : Bool := decide (s.durMs ≠ 0)

/-- While-loop body of `create_looped_segment` in the looping branch:
concatenate whole copies of the source while it fits, else concatenate
`segment[: int(remaining * 1000)]`. The loop condition compares
`duration_seconds` to `duration_ms / 1000`. With a fractional remainder
below one millisecond the slice is empty and the Python loop never
terminates; the fuel-indexed model returns `none` in that case. -/
def loopedAux : ℕ → Seg → ℚ → Seg → Option Seg
  | 0, _, duration_ms, acc =>
    if acc.durationSeconds < qDivInt duration_ms 1000 then none else some acc
  | n + 1, segment, duration_ms, acc =>
    if acc.durationSeconds < qDivInt duration_ms 1000 then
      let remaining := qSub (qDivInt duration_ms 1000) acc.durationSeconds
      if segment.durationSeconds ≤ remaining then
        loopedAux n segment duration_ms (.append acc segment)
      else
        loopedAux n segment duration_ms
          (.append acc (.slice segment (pyInt (qMulInt remaining 1000))))
    else some acc

/-- Model of `create_looped_segment(segment, duration_ms, loop)`. The
call sites pass `bg_config.get("loop", True)` for `loop`, an arbitrary
Python value tested for truthiness; in the non-looping branch the code
returns `segment[: int(duration_ms)]`. -/
def create_looped_segment (fuel : ℕ) (segment : Seg) (duration_ms : ℚ) (loop : PyVal) :
    Option Seg :=
  if pyTruthy loop then loopedAux fuel segment duration_ms .empty
  else some (.slice segment (pyInt duration_ms))

/-- Closing of an open background span, as performed identically at the
three sites of main.py (`process_background_audio_change` twice, end of
`process_audiobook`): load the background (resolver `rB` models
`load_background_audio`, returning `none` on a failed lookup), and when
it loads to a truthy segment append one event at the span start with the
looped/truncated rendering of the span `[start_time, current_time)`.
Returns `none` only when the looping loop does not terminate. -/
def closeBg (fuel : ℕ) (rB : PyDict → Option Seg) (active : Option (ℚ × PyDict))
    (current_time : ℚ) : Option (List (ℚ × Seg)) :=
  match active with
  | none => some []
  | some (start_time, bg_config) =>
    match rB bg_config with
    | none => some []
    | some seg =>
      if segTruthy seg then
        match create_looped_segment fuel seg (qSub current_time start_time)
            (dictGet bg_config ("loop") (.pyBool true)) with
        | none => none
        | some l => some [(start_time, l)]
      else some []

/-- Model of `process_background_audio_change`: on a truthy
`section.background_audio`, close any previous span and open a new one
at the cursor (without comparing the new background to the active one);
on `background_audio is None` with an open span, close it. Returns the
appended events and the updated `active_bg`. -/
def process_background_audio_change (fuel : ℕ) (rB : PyDict → Option Seg)
    (sec : MarkupSection) (active_bg : Option (ℚ × PyDict)) (current_time : ℚ) :
    Option (List (ℚ × Seg) × Option (ℚ × PyDict)) :=
  match sec.background_audio with
  | some d =>
    if d.isEmpty then some ([], active_bg)
    else (closeBg fuel rB active_bg current_time).map (fun l => (l, some (current_time, d)))
  | none =>
    match active_bg with
    | some _ => (closeBg fuel rB active_bg current_time).map (fun l => (l, none))
    | none => some ([], none)

/-- Errors of the scheduling loop: the `ValueError` raised by
`generate_voice_audio` for a section without voice; a propagated
synthesis failure; the `TypeError` from `current_time + start_at * 1000`
when a resolved sound effect carries a non-numeric `start_at`; and
non-termination of `create_looped_segment` (fuel exhaustion). -/
inductive RunError where
  | missingVoice
  | synthFail
  | typeErr
  | fuelOut
  deriving DecidableEq, Repr

/-- Value of `start_at * 1000` as used in `current_time + (start_at *
1000)`: numbers multiply; Python booleans are integers; a string times
an integer is a string and adding it to a float raises `TypeError`
(modelled as `none`), likewise `None`. -/
def pyTimes1000 : PyVal → Option ℚ
  | .pyNum q => some (qMulInt q 1000)
  | .pyBool b => some (if b then 1000 else 0)
  | .pyStr _ => none
  | .pyNone => none

/-- Sound-effect handling of the section loop of `process_audiobook`:
for each config, `load_sound_effect` (resolver `rS`, `none` models a
failed lookup) is consulted; a falsy or missing segment is skipped, an
event is appended at `current_time + start_at * 1000` otherwise. -/
def processSfx (rS : PyDict → Option Seg) : List PyDict → ℚ →
    Except RunError (List (ℚ × Seg))
  | [], _ => .ok []
  | cfg :: rest, current_time =>
    match rS cfg with
    | none => processSfx rS rest current_time
    | some seg =>
      if segTruthy seg then
        match pyTimes1000 (dictGet cfg ("start_at") (.pyNum 0)) with
        | none => .error .typeErr
        | some off =>
          (processSfx rS rest current_time).map (fun l => (qAdd current_time off, seg) :: l)
      else processSfx rS rest current_time

/-- Model of `generate_voice_audio`: raise `ValueError` when the section
has no (truthy) voice, $before$ the synthesis call; otherwise synthesise
`section.text` with `section.voice` (a failing synthesis propagates). -/
def generate_voice_audio (synth : String → String → Option Seg) (sec : MarkupSection) :
    Except RunError Seg :=
  match sec.voice with
  | none => .error .missingVoice
  | some v =>
    if v = "" then .error .missingVoice
    else
      match synth sec.text v with
      | none => .error .synthFail
      | some seg => .ok seg

/-- Scheduling loop of `process_audiobook` over the parsed sections:
per section, background change first, then sound effects, then (for a
section whose stripped text is nonempty) the voice event at the cursor,
advancing the cursor by the voice duration; after the loop a still-open
background span is closed at the final cursor. -/
def processSections (fuel : ℕ) (rS rB : PyDict → Option Seg)
    (synth : String → String → Option Seg) :
    List MarkupSection → List (ℚ × Seg) → ℚ → Option (ℚ × PyDict) →
    Except RunError (List (ℚ × Seg) × ℚ)
  | [], events, current_time, active_bg =>
    match closeBg fuel rB active_bg current_time with
    | none => .error .fuelOut
    | some l => .ok (events ++ l, current_time)
  | sec :: rest, events, current_time, active_bg =>
    match process_background_audio_change fuel rB sec active_bg current_time with
    | none => .error .fuelOut
    | some (bgEvents, active2) =>
      match processSfx rS sec.sound_effects current_time with
      | .error e => .error e
      | .ok sfxEvents =>
        if pyStrip sec.text.data = [] then
          processSections fuel rS rB synth rest (events ++ bgEvents ++ sfxEvents)
            current_time active2
        else
          match generate_voice_audio synth sec with
          | .error e => .error e
          | .ok voiceSeg =>
            processSections fuel rS rB synth rest
              (events ++ bgEvents ++ sfxEvents ++ [(current_time, voiceSeg)])
              (qAdd current_time voiceSeg.durMs) active2

/-- Job-level failures of `process_audiobook`: a markup parse error, the
`ValueError("No valid sections found in markup")` on an empty section
list, or an error from the scheduling loop. All of them mark the task
failed. -/
inductive JobError where
  | parseErr (e : MarkupError)
  | noSections
  | runErr (e : RunError)
  deriving DecidableEq, Repr

/-- Model of `process_audiobook`: parse the markup, fail the job on an
empty section list, then run the scheduling loop from an empty timeline,
cursor `0.0` and no active background. -/
def process_audiobook (fuel : ℕ) (rS rB : PyDict → Option Seg)
    (synth : String → String → Option Seg) (markup_text : String) :
    Except JobError (List (ℚ × Seg) × ℚ) :=
  match parse_audiobook_markup markup_text with
  | .error e => .error (.parseErr e)
  | .ok sections =>
    if sections.isEmpty then .error .noSections
    else
      match processSections fuel rS rB synth sections [] 0 none with
      | .error e => .error (.runErr e)
      | .ok r => .ok r

deriving instance DecidableEq for Except

/- ===================== observation helpers ===================== -/

/-- Observation: whether an event's segment is a bare loaded/synthesised
asset. Voice and sound-effect events carry assets; background events
carry the `append`/`slice` trees built by `create_looped_segment`. -/
def segIsAsset : Seg → Bool
  | .asset _ _ => true
  | _ => false

/-- Number of background (non-asset) events on a timeline. -/
def bgEventCount (events : List (ℚ × Seg)) : ℕ :=
  (events.filter (fun e => !segIsAsset e.2)).length

/-- Trimmed command of a directive body, as the claim words it
("the (trimmed) command"): everything before the first colon, stripped. -/
def cmdTrimmed (markup : List Char) : Option String :=
  (splitOnce ':' markup).map (fun p => String.mk (pyStrip p.1))

/-- Command of a directive body as the code computes it: stripped and
lowercased. -/
def cmdLowered (markup : List Char) : Option String :=
  (splitOnce ':' markup).map (fun p => String.mk (pyLower (pyStrip p.1)))

/-- The three commands `_parse_markup` accepts. -/
def allowedCommands : List String := ["voice", "sfx", "bg"]

/-- String-level `strip`. -/
def pyStripS (s : String) : String := String.mk (pyStrip s.data)

/- ===================== concrete job inputs ===================== -/

/-- Opening directive delimiter. -/
def brO : String := "\x7b\x7b\x7b"

/-- Closing directive delimiter. -/
def brC : String := "\x7d\x7d\x7d"

/-- The sound-effect input of the repository's own
`test_parse_sound_effects`. -/
def inputC1 : String := brO ++ "sfx:door_knock" ++ brC ++ "Someone knocked"

/-- Voice carry-forward example from the spec. -/
def inputC5a : String := brO ++ "voice:a" ++ brC ++ "X" ++ brO ++ "voice:b" ++ brC ++ "Y"

/-- Background stop example from the spec. -/
def inputC5b : String := brO ++ "bg:music" ++ brC ++ "P" ++ brO ++ "bg:stop" ++ brC ++ "Q"

/-- Option-coercion example from the spec. -/
def inputC6 : String := brO ++ "bg:music,volume:0.5,loop:true" ++ brC ++ "T"

/-- Option-coercion example with spaces after the option colons. -/
def inputC6sp : String := brO ++ "bg:music,volume: 0.5,loop: true" ++ brC ++ "T"

/-- Non-numeric option value with a leading space. -/
def inputC6bad : String := brO ++ "bg:music,loop: x" ++ brC ++ "T"

/-- Unknown-command example from the spec. -/
def inputC4 : String := brO ++ "nope:x" ++ brC ++ "text"

/-- Background with a `loop:false` option, later stopped. -/
def inputC10f : String :=
  brO ++ "voice:v" ++ brC ++ brO ++ "bg:m,loop:false" ++ brC ++ "Hello" ++
    brO ++ "bg:stop" ++ brC ++ "World"

/-- Background with a `loop:0` option, later stopped. -/
def inputC10z : String :=
  brO ++ "voice:v" ++ brC ++ brO ++ "bg:m,loop:0" ++ brC ++ "Hello" ++
    brO ++ "bg:stop" ++ brC ++ "World"

/-- Background resolver used in the concrete scheduling runs: every
config resolves to a 400 ms asset. -/
def rB400 : PyDict → Option Seg := fun _ => some (.asset ("m") 400)

/-- Sound-effect resolver that always fails (irrelevant to runs whose
sections carry no effects). -/
def rSnone : PyDict → Option Seg := fun _ => none

/-- Synthesiser stub: every call returns a 1000 ms asset named by the
text. -/
def synth1000 : String → String → Option Seg := fun t _ => some (.asset t 1000)

/-- The background dict parsed from `bg:m`. -/
def bgdC2 : PyDict := [(("name"), PyVal.pyStr ("m"))]

/-- Two consecutive sections carrying the same background value. -/
def sectionsC2 : List MarkupSection :=
  [⟨"A", some ("v"), [], some bgdC2⟩, ⟨"B", some ("v"), [], some bgdC2⟩]

/-- Background resolver for the C2 run: a 250 ms asset. -/
def rBC2 : PyDict → Option Seg := fun _ => some (.asset ("m") 250)

/-- Looped rendering of 1000 ms from a 250 ms source (four copies). -/
def loopedC2 : Seg :=
  .append (.append (.append (.append .empty (.asset ("m") 250)) (.asset ("m") 250))
    (.asset ("m") 250)) (.asset ("m") 250)

/-- Timeline produced for `sectionsC2`: two one-section background
events instead of one run-covering event. -/
def eventsC2 : List (ℚ × Seg) :=
  [(0, .asset ("A") 1000), (0, loopedC2), (1000, .asset ("B") 1000), (1000, loopedC2)]

/-- Looped rendering of 1000 ms from a 400 ms source (two copies and a
200 ms remainder slice). -/
def loopedC10 : Seg :=
  .append (.append (.append .empty (.asset ("m") 400)) (.asset ("m") 400))
    (.slice (.asset ("m") 400) 200)

/- ===================== claim theorems (concrete) ===================== -/

/-- C1: the spec says a `sfx` directive appends `{id: value, options}` to a
pending sound-effect accumulator carried into the next non-empty text
span. The code does not: the `sfx` branch of `_parse_markup` is `pass`
and nothing ever appends to the `current_sfx` accumulator in `parse`, so
every parsed section has an empty `sound_effects` list. On the
repository's own test input (`test_parse_sound_effects`, which asserts
`sound_effects == [{"id": "door_knock"}]`) the parser returns a section
with no sound effects at all. -/
theorem C1_sfx_directives_never_recorded :
    parse_audiobook_markup inputC1 =
      .ok [⟨"Someone knocked", none, [], none⟩] := by decide

/-- C2 counterexample: two consecutive sections carrying the same
(equal) background value. The claim predicts a single background event
covering the whole run `[0, 2000)`; `process_background_audio_change`
never compares the new background with the active one, so the run
produces two background events, one per section (`[0, 1000)` and
`[1000, 2000)`), restarting the span at each section. -/
theorem C2_counterexample_equal_background_restarts_span :
    processSections 10 rSnone rBC2 synth1000 sectionsC2 [] 0 none = .ok (eventsC2, 2000) ∧
    bgEventCount eventsC2 = 2 ∧ bgEventCount eventsC2 ≠ 1 := by decide

/-- C3: parsing plain text with no directives succeeds and yields one
section with `voice = None`; scheduling that section list fails with the
`ValueError`-kind missing-voice error, for every synthesiser and every
resolver — in particular for a synthesiser that would itself fail, which
shows the error is raised before any synthesis call is made for the
section. -/
theorem C3_missing_voice_fatal_at_schedule_not_parse :
    parse_audiobook_markup ("plain text") = .ok [⟨"plain text", none, [], none⟩] ∧
    ∀ (fuel : ℕ) (rS rB : PyDict → Option Seg) (synth : String → String → Option Seg),
      process_audiobook fuel rS rB synth ("plain text") = .error (.runErr .missingVoice) := by
  refine ⟨by decide, fun fuel rS rB synth => ?_⟩
  have hp : parse_audiobook_markup ("plain text") =
      .ok [⟨"plain text", none, [], none⟩] := by decide
  unfold process_audiobook
  rw [hp]
  simp only [List.isEmpty, Bool.false_eq_true, if_false]
  have hbg : process_background_audio_change fuel rB ⟨"plain text", none, [], none⟩ none 0 =
      some ([], none) := rfl
  have htext : (pyStrip ("plain text" : String).data = ([] : List Char)) = False := by
    simp only [eq_iff_iff, iff_false]
    decide
  simp [processSections, hbg, processSfx, generate_voice_audio, htext]

/-- C4 counterexample: the claim says a `MarkupSyntaxError` is raised
whenever the trimmed command is not one of `voice`, `sfx`, `bg`. The
code lowercases the command after trimming, so the body `VOICE:x` —
whose trimmed command `VOICE` is not in the set — is nevertheless
accepted (and sets the voice to `x`). -/
theorem C4_counterexample_uppercase_command_accepted :
    cmdTrimmed (("VOICE:x").data) = some ("VOICE") ∧
    (("VOICE" : String) ∉ allowedCommands) ∧
    parseMarkupTag ⟨none, none⟩ (("VOICE:x").data) = .ok ⟨some ("x"), none⟩ := by decide

/-- Spec-side reading of one directive body from the blank state: the voice
it would set, if it is a voice directive that parses. -/
def freshVoiceOf (b : List Char) : Option String :=
  match parseMarkupTag ⟨none, none⟩ b with
  | .ok st => st.current_voice
  | .error _ => none

def freshBgOf (b : List Char) : Option PyDict :=
  match parseMarkupTag ⟨none, none⟩ b with
  | .ok st => st.current_background
  | .error _ => none

/-- Spec-side "last directive wins": the voice set by the last `voice`
directive among `bodies`, each interpreted fresh. -/
def lastVoice (bodies : List (List Char)) : Option String :=
  match (bodies.filter (fun b => decide (cmdLowered b = some ("voice")))).getLast? with
  | some b => freshVoiceOf b
  | none => none

/-- Spec-side "last directive wins": the background set by the last `bg`
directive among `bodies`, each interpreted fresh (`bg:stop` clears it). -/
def lastBg (bodies : List (List Char)) : Option PyDict :=
  match (bodies.filter (fun b => decide (cmdLowered b = some ("bg")))).getLast? with
  | some b => freshBgOf b
  | none => none

theorem parseMarkupTag_state (st st2 : PState) (b : List Char)
    (h : parseMarkupTag st b = .ok st2) :
    st2.current_voice =
      (if cmdLowered b = some ("voice") then freshVoiceOf b else st.current_voice) ∧
    st2.current_background =
      (if cmdLowered b = some ("bg") then freshBgOf b else st.current_background) := by
  cases hsp : splitOnce ':' b with
  | none => simp [parseMarkupTag, hsp] at h
  | some p =>
    obtain ⟨p0, p1⟩ := p
    have hcmd : cmdLowered b = some (String.mk (pyLower (pyStrip p0))) := by
      simp [cmdLowered, hsp]
    simp only [parseMarkupTag, hsp] at h
    simp only [freshVoiceOf, freshBgOf, parseMarkupTag, hsp, hcmd, Option.some.injEq]
    split_ifs at h with h1 h2 h3 h4 <;>
      simp_all <;> cases h <;> simp_all

theorem lastVoice_append (seen : List (List Char)) (b : List Char) :
    lastVoice (seen ++ [b]) =
      if cmdLowered b = some ("voice") then freshVoiceOf b else lastVoice seen := by
  by_cases h : cmdLowered b = some ("voice") <;>
    simp [lastVoice, List.filter_append, h]

theorem lastBg_append (seen : List (List Char)) (b : List Char) :
    lastBg (seen ++ [b]) =
      if cmdLowered b = some ("bg") then freshBgOf b else lastBg seen := by
  by_cases h : cmdLowered b = some ("bg") <;>
    simp [lastBg, List.filter_append, h]

theorem parseMarkupTag_fold (st st2 : PState) (b : List Char) (seen : List (List Char))
    (hst : st = ⟨lastVoice seen, lastBg seen⟩)
    (h : parseMarkupTag st b = .ok st2) :
    st2 = ⟨lastVoice (seen ++ [b]), lastBg (seen ++ [b])⟩ := by
  obtain ⟨hv, hbg⟩ := parseMarkupTag_state st st2 b h
  cases st2 with
  | mk v2 b2 =>
    simp only [PState.mk.injEq]
    constructor
    · rw [lastVoice_append]
      simpa [hst] using hv
    · rw [lastBg_append]
      simpa [hst] using hbg

/-- Spec-side recomputation of the parser output, written from the claim:
each section text is paired with the last voice/background directive among
all directive bodies seen so far, recomputed from scratch at every section
(so any state a parser forgot between sections would show up as a
difference). Follows the split structure of `parseParts` but keeps no
running state. -/
def specTriples (seen : List (List Char)) (cur : List Char) :
    List (List Char) → List (String × Option String × Option PyDict)
  | [] =>
    if pyStrip cur ≠ [] then [(String.mk (pyStrip cur), lastVoice seen, lastBg seen)] else []
  | [t] =>
    let ct := cur ++ t
    if pyStrip ct ≠ [] then [(String.mk (pyStrip ct), lastVoice seen, lastBg seen)] else []
  | t :: b :: rest =>
    let ct := cur ++ t
    if pyStrip ct ≠ [] then
      (String.mk (pyStrip ct), lastVoice seen, lastBg seen) :: specTriples (seen ++ [b]) [] rest
    else specTriples (seen ++ [b]) ct rest

theorem parseParts_spec :
    ∀ (n : ℕ) (parts : List (List Char)), parts.length ≤ n →
    ∀ (seen : List (List Char)) (cur : List Char) (sfx : List PyDict)
      (secs : List MarkupSection),
    parseParts ⟨lastVoice seen, lastBg seen⟩ cur sfx parts = .ok secs →
    secs.map (fun s => (s.text, s.voice, s.background_audio)) = specTriples seen cur parts := by
  intro n
  induction n with
  | zero =>
    intro parts hlen seen cur sfx secs h
    rw [List.length_eq_zero.mp (Nat.le_zero.mp hlen)] at h ⊢
    simp only [parseParts, Except.ok.injEq] at h
    subst h
    by_cases hc : pyStrip cur ≠ [] <;> simp [specTriples, mkSection, hc]
  | succ n ih =>
    intro parts hlen seen cur sfx secs h
    match parts with
    | [] =>
      simp only [parseParts, Except.ok.injEq] at h
      subst h
      by_cases hc : pyStrip cur ≠ [] <;> simp [specTriples, mkSection, hc]
    | [t] =>
      simp only [parseParts, Except.ok.injEq] at h
      subst h
      by_cases hc : pyStrip (cur ++ t) ≠ [] <;> simp [specTriples, mkSection, hc]
    | t :: b :: rest =>
      simp only [parseParts] at h
      by_cases hc : pyStrip (cur ++ t) ≠ []
      · rw [if_pos hc] at h
        cases hmt : parseMarkupTag ⟨lastVoice seen, lastBg seen⟩ b with
        | error e => rw [hmt] at h; cases h
        | ok st2 =>
          rw [hmt] at h
          dsimp only at h
          cases hrec : parseParts st2 [] [] rest with
          | error e => rw [hrec] at h; cases h
          | ok secs2 =>
            rw [hrec] at h
            simp only [Except.map, Except.ok.injEq] at h
            subst h
            have hst2 := parseMarkupTag_fold _ st2 b seen rfl hmt
            rw [hst2] at hrec
            have := ih rest (by simp only [List.length_cons] at hlen; omega)
              (seen ++ [b]) [] [] secs2 hrec
            simp only [specTriples, if_pos hc, List.map_cons, mkSection]
            rw [← this]
      · rw [if_neg hc] at h
        cases hmt : parseMarkupTag ⟨lastVoice seen, lastBg seen⟩ b with
        | error e => rw [hmt] at h; cases h
        | ok st2 =>
          rw [hmt] at h
          dsimp only at h
          have hst2 := parseMarkupTag_fold _ st2 b seen rfl hmt
          rw [hst2] at h
          have := ih rest (by simp only [List.length_cons] at hlen; omega)
            (seen ++ [b]) (cur ++ t) sfx secs h
          simp only [specTriples, if_neg hc]
          exact this

/-- Carry-forward input: the voice directive is followed by two sections it
does not immediately precede (a `bg` and a `bg:stop` intervene). -/
def inputC5c : String :=
  brO ++ "voice:a" ++ brC ++ "X" ++ brO ++ "bg:m" ++ brC ++ "Y" ++
    brO ++ "bg:stop" ++ brC ++ "Z"

/-- C5: voice and background state are carried forward with
last-directive-wins scope, and this holds for every parsed input, not just
inputs where a directive immediately precedes its span: the
(text, voice, background) triples of any successful parse equal
`specTriples`, which recomputes each section's voice and background from
scratch as the last `voice`/`bg` directive among all directive bodies
preceding that section (a parser that reset state between sections would
differ from it). Concretely: `voice:a … X … voice:b … Y` yields voices
`a`, `b` with trimmed texts `X`, `Y`; `bg:music … P … bg:stop … Q` yields
background `(name, music)` then `None`; and `voice:a … X … bg:m … Y …
bg:stop … Z` carries voice `a` unchanged across two intervening `bg`
directives. -/
theorem C5_voice_and_background_carry_forward :
    (∀ (text : String) (secs : List MarkupSection),
      parse_audiobook_markup text = .ok secs →
      secs.map (fun s => (s.text, s.voice, s.background_audio)) =
        (if pyStrip text.data = [] then [] else specTriples [] [] (markupSplit text.data))) ∧
    parse_audiobook_markup inputC5a =
      .ok [⟨"X", some ("a"), [], none⟩, ⟨"Y", some ("b"), [], none⟩] ∧
    parse_audiobook_markup inputC5b =
      .ok [⟨"P", none, [], some [(("name"), .pyStr ("music"))]⟩,
           ⟨"Q", none, [], none⟩] ∧
    parse_audiobook_markup inputC5c =
      .ok [⟨"X", some ("a"), [], none⟩,
           ⟨"Y", some ("a"), [], some [(("name"), .pyStr ("m"))]⟩,
           ⟨"Z", some ("a"), [], none⟩] := by
  refine ⟨?_, by decide, by decide, by decide⟩
  intro text secs h
  by_cases he : pyStrip text.data = []
  · rw [if_pos he]
    unfold parse_audiobook_markup at h
    rw [if_pos he] at h
    cases h
    rfl
  · rw [if_neg he]
    unfold parse_audiobook_markup at h
    rw [if_neg he] at h
    exact parseParts_spec ((markupSplit text.data).length) (markupSplit text.data) le_rfl
      [] [] [] secs h
/-- Witness for C5: the universal refinement applied at the three-section
carry-forward input, whose parse is pinned concretely. -/
theorem C5_voice_and_background_carry_forward_witness :
    ([⟨"X", some ("a"), [], none⟩,
      ⟨"Y", some ("a"), [], some [(("name"), .pyStr ("m"))]⟩,
      ⟨"Z", some ("a"), [], none⟩] : List MarkupSection).map
        (fun s => (s.text, s.voice, s.background_audio)) =
      (if pyStrip inputC5c.data = [] then []
       else specTriples [] [] (markupSplit inputC5c.data)) :=
  C5_voice_and_background_carry_forward.1 inputC5c
    [⟨"X", some ("a"), [], none⟩,
     ⟨"Y", some ("a"), [], some [(("name"), .pyStr ("m"))]⟩,
     ⟨"Z", some ("a"), [], none⟩] (by decide)

/-- C6 counterexample: the claim says a non-numeric option value is
stored as a trimmed string. The option regex match `loop: x` stores the
value exactly as matched — `" x"`, with its leading space — not the
trimmed `"x"`. -/
theorem C6_counterexample_option_value_stored_untrimmed :
    parse_audiobook_markup inputC6bad =
      .ok [⟨"T", none, [],
        some [(("name"), .pyStr ("music")), (("loop"), .pyStr (" x"))]⟩] ∧
    pyStripS (" x") = ("x") ∧ (" x" : String) ≠ ("x") := by decide


theorem dictGet_insert_self (d : PyDict) (k : String) (v dflt : PyVal) :
    dictGet (dictInsert d k v) k dflt = v := by
  induction d with
  | nil => simp [dictInsert, dictGet]
  | cons e rest ih =>
    obtain ⟨k0, v0⟩ := e
    by_cases h : k0 = k
    · simp [dictInsert, dictGet, h]
    · simp [dictInsert, dictGet, h, ih]

theorem dictGet_insert_other (d : PyDict) (k k2 : String) (h : k ≠ k2) (v dflt : PyVal) :
    dictGet (dictInsert d k v) k2 dflt = dictGet d k2 dflt := by
  induction d with
  | nil => simp [dictInsert, dictGet, h]
  | cons e rest ih =>
    obtain ⟨k0, v0⟩ := e
    by_cases h0 : k0 = k
    · subst h0
      simp [dictInsert, dictGet, h]
    · simp [dictInsert, dictGet, h0, ih]

theorem mem_dictInsert (d : PyDict) (k : String) (v : PyVal) (e : String × PyVal)
    (h : e ∈ dictInsert d k v) : e ∈ d ∨ e = (k, v) := by
  induction d with
  | nil => simpa [dictInsert] using h
  | cons e0 rest ih =>
    obtain ⟨k0, v0⟩ := e0
    by_cases h0 : k0 = k
    · simp only [dictInsert, if_pos h0, List.mem_cons] at h
      rcases h with h | h
      · right
        rw [h, h0]
      · left
        simp [h]
    · simp only [dictInsert, if_neg h0, List.mem_cons] at h
      rcases h with h | h
      · left
        simp [h]
      · rcases ih h with h2 | h2
        · left
          simp [h2]
        · right
          exact h2

theorem mem_optionsFold : ∀ (L : List (List Char × List Char)) (d0 : PyDict) (e : String × PyVal),
    e ∈ L.foldl (fun d kv => dictInsert d (String.mk (pyStrip kv.1)) (coerceOption kv.2)) d0 →
    e ∈ d0 ∨ ∃ kv ∈ L, e = (String.mk (pyStrip kv.1), coerceOption kv.2) := by
  intro L
  induction L with
  | nil => intro d0 e h; exact Or.inl h
  | cons kv0 rest ih =>
    intro d0 e h
    simp only [List.foldl_cons] at h
    rcases ih _ e h with h2 | h2
    · rcases mem_dictInsert _ _ _ _ h2 with h3 | h3
      · exact Or.inl h3
      · exact Or.inr ⟨kv0, List.mem_cons_self kv0 rest, h3⟩
    · obtain ⟨kv, hmem, heq⟩ := h2
      exact Or.inr ⟨kv, List.mem_cons_of_mem _ hmem, heq⟩

theorem dictGet_optionsFold_not_mem :
    ∀ (L : List (List Char × List Char)) (d0 : PyDict) (key : String) (dflt : PyVal),
    (∀ kv ∈ L, String.mk (pyStrip kv.1) ≠ key) →
    dictGet (L.foldl (fun d kv => dictInsert d (String.mk (pyStrip kv.1)) (coerceOption kv.2)) d0)
      key dflt = dictGet d0 key dflt := by
  intro L
  induction L with
  | nil => intro d0 key dflt _; rfl
  | cons kv0 rest ih =>
    intro d0 key dflt hk
    simp only [List.foldl_cons]
    rw [ih _ key dflt (fun kv h => hk kv (List.mem_cons_of_mem _ h))]
    exact dictGet_insert_other d0 _ key (hk kv0 (List.mem_cons_self kv0 rest)) _ dflt

theorem dictGet_optionsFold_mem :
    ∀ (L : List (List Char × List Char)) (d0 : PyDict) (k v : List Char) (dflt : PyVal),
    (k, v) ∈ L → (∀ kv ∈ L, pyStrip kv.1 = kv.1) →
    ∃ v2, (k, v2) ∈ L ∧
      dictGet (L.foldl (fun d kv => dictInsert d (String.mk (pyStrip kv.1)) (coerceOption kv.2)) d0)
        (String.mk (pyStrip k)) dflt = coerceOption v2 := by
  intro L
  induction L with
  | nil => intro d0 k v dflt h _; cases h
  | cons kv0 rest ih =>
    intro d0 k v dflt hmem hid
    obtain ⟨k0, v0⟩ := kv0
    simp only [List.foldl_cons]
    have hidrest : ∀ kv ∈ rest, pyStrip kv.1 = kv.1 :=
      fun kv h => hid kv (List.mem_cons_of_mem _ h)
    rcases List.mem_cons.mp hmem with hhead | htail
    · obtain ⟨hk, hv⟩ := Prod.mk.injEq .. ▸ hhead
      subst hk
      subst hv
      by_cases hex : ∃ kv ∈ rest, String.mk (pyStrip kv.1) = String.mk (pyStrip k)
      · obtain ⟨⟨k1, v1⟩, hmem1, heq1⟩ := hex
        have hk1 : k1 = k := by
          have e1 : pyStrip k1 = k1 := hidrest _ hmem1
          have e2 : pyStrip k = k := hid _ (List.mem_cons_self _ _)
          have := heq1
          rw [e1, e2] at this
          exact congrArg String.data this
        subst hk1
        obtain ⟨v2, hmem2, hget⟩ := ih _ k1 v1 dflt hmem1 hidrest
        exact ⟨v2, List.mem_cons_of_mem _ hmem2, hget⟩
      · push_neg at hex
        refine ⟨v, List.mem_cons_self _ _, ?_⟩
        rw [dictGet_optionsFold_not_mem rest _ _ dflt hex]
        exact dictGet_insert_self d0 _ _ dflt
    · obtain ⟨v2, hmem2, hget⟩ := ih _ k v dflt htail hidrest
      exact ⟨v2, List.mem_cons_of_mem _ hmem2, hget⟩

theorem wordChar_not_space (c : Char) (h : isWordChar c = true) : isPySpace c = false := by
  by_contra h2
  have h3 : isPySpace c = true := by
    cases hc : isPySpace c
    · exact absurd hc h2
    · rfl
  simp only [isPySpace, Bool.or_eq_true, decide_eq_true_eq] at h3
  rcases h3 with ((((h3 | h3) | h3) | h3) | h3) | h3 <;> subst h3 <;> simp [isWordChar] at h

theorem dropWhile_no_space (l : List Char) (hl : ∀ c ∈ l, isPySpace c = false) :
    l.dropWhile isPySpace = l := by
  cases l with
  | nil => rfl
  | cons a t => simp [List.dropWhile_cons, hl a (List.mem_cons_self a t)]

theorem pyStrip_of_wordChars (k : List Char) (h : ∀ c ∈ k, isWordChar c = true) :
    pyStrip k = k := by
  have hns : ∀ c ∈ k, isPySpace c = false := fun c hc => wordChar_not_space c (h c hc)
  rw [pyStrip, dropWhile_no_space k hns,
    dropWhile_no_space k.reverse (fun c hc => hns c (List.mem_reverse.mp hc)),
    List.reverse_reverse]

theorem optionFinditerAux_key_wordChars :
    ∀ (fuel : ℕ) (s : List Char) (kv : List Char × List Char),
    kv ∈ optionFinditerAux fuel s → ∀ c ∈ kv.1, isWordChar c = true := by
  intro fuel
  induction fuel with
  | zero => intro s kv h; cases h
  | succ n ih =>
    intro s kv h
    cases s with
    | nil => cases h
    | cons c t =>
      simp only [optionFinditerAux] at h
      by_cases hw : (c :: t).takeWhile isWordChar = []
      · rw [if_pos hw] at h
        exact ih t kv h
      · rw [if_neg hw] at h
        cases hd : (c :: t).drop ((c :: t).takeWhile isWordChar).length with
        | nil => rw [hd] at h; exact ih t kv h
        | cons c2 r2 =>
          rw [hd] at h
          dsimp only at h
          by_cases hc2 : c2 = ':'
          · rw [if_pos hc2] at h
            by_cases hv : r2.takeWhile (fun ch => ch ≠ ',') = []
            · rw [if_pos hv] at h
              exact ih t kv h
            · rw [if_neg hv] at h
              rcases List.mem_cons.mp h with h2 | h2
              · subst h2
                intro ch hch
                exact List.mem_takeWhile_imp hch
              · exact ih _ kv h2
          · rw [if_neg hc2] at h
            exact ih t kv h

theorem optionFinditer_key_wordChars (s : List Char) (kv : List Char × List Char)
    (h : kv ∈ optionFinditer s) : ∀ c ∈ kv.1, isWordChar c = true :=
  optionFinditerAux_key_wordChars (s.length + 1) s kv h

theorem optionFinditer_key_strip (s : List Char) :
    ∀ kv ∈ optionFinditer s, pyStrip kv.1 = kv.1 := fun kv h =>
  pyStrip_of_wordChars kv.1 (optionFinditer_key_wordChars s kv h)

/-- C6: directive option values are coerced numerically-else-kept-as-string
with no boolean coercion, for every option pair: every entry of a parsed
option dict comes from a matched `key:value` pair and stores either the
parsed float of the value or the raw matched value string, untrimmed; and
every matched pair is looked up under its stripped key to such a coerced
value (last duplicate wins). On the claim's example, `volume` is the number
`0.5` and `loop` stays the string `"true"` (no boolean); with spaces after
the option colons, `volume: 0.5` is still numeric (Python `float` tolerates
surrounding whitespace) while `loop: true` stays the raw string `" true"`. -/
theorem C6_option_values_numeric_else_raw_string :
    (∀ (optionStr : List Char) (e : String × PyVal), e ∈ parseOptions optionStr →
      ∃ k v, (k, v) ∈ optionFinditer optionStr ∧
        e = (String.mk (pyStrip k),
          match pyFloat v with
          | some q => PyVal.pyNum q
          | none => PyVal.pyStr (String.mk v))) ∧
    (∀ (optionStr k v : List Char), (k, v) ∈ optionFinditer optionStr →
      ∃ v2, (k, v2) ∈ optionFinditer optionStr ∧
        dictGet (parseOptions optionStr) (String.mk (pyStrip k)) (.pyNone) =
          (match pyFloat v2 with
           | some q => PyVal.pyNum q
           | none => PyVal.pyStr (String.mk v2))) ∧
    parse_audiobook_markup inputC6 =
      .ok [⟨"T", none, [],
        some [(("name"), .pyStr ("music")), (("volume"), .pyNum (Rat.divInt 1 2)),
              (("loop"), .pyStr ("true"))]⟩] ∧
    parse_audiobook_markup inputC6sp =
      .ok [⟨"T", none, [],
        some [(("name"), .pyStr ("music")), (("volume"), .pyNum (Rat.divInt 1 2)),
              (("loop"), .pyStr (" true"))]⟩] := by
  refine ⟨?_, ?_, by decide, by decide⟩
  · intro optStr e h
    unfold parseOptions at h
    rcases mem_optionsFold _ [] e h with h2 | h2
    · cases h2
    · obtain ⟨kv, hm, he⟩ := h2
      refine ⟨kv.1, kv.2, hm, ?_⟩
      rw [he]
      rfl
  · intro optStr k v h
    obtain ⟨v2, hm, hget⟩ :=
      dictGet_optionsFold_mem (optionFinditer optStr) [] k v .pyNone h
        (optionFinditer_key_strip optStr)
    refine ⟨v2, hm, ?_⟩
    rw [show parseOptions optStr =
      (optionFinditer optStr).foldl
        (fun d kv => dictInsert d (String.mk (pyStrip kv.1)) (coerceOption kv.2)) [] from rfl,
      hget]
    rfl
/-- Witness for C6: the universal coercion statement applied at a concrete
option string with one numeric and one non-numeric value. -/
theorem C6_option_values_numeric_else_raw_string_witness :
    ∃ v2, ((("volume").data, v2) ∈ optionFinditer (("volume:0.5,loop: x").data)) ∧
      dictGet (parseOptions (("volume:0.5,loop: x").data))
        (String.mk (pyStrip (("volume").data))) (.pyNone) =
        (match pyFloat v2 with
         | some q => PyVal.pyNum q
         | none => PyVal.pyStr (String.mk v2)) :=
  C6_option_values_numeric_else_raw_string.2.1 (("volume:0.5,loop: x").data)
    (("volume").data) (("0.5").data) (by decide)

/-- C7 counterexample: with looping disabled, a 20 ms source and a
fractional target span of 10.5 ms, the code returns
`segment[: int(10.5)]`, a 10 ms buffer — not the claimed "shorter of
source length and span duration", which is 10.5 ms. -/
theorem C7_counterexample_fractional_duration :
    create_looped_segment 5 (.asset ("src") 20) (Rat.divInt 21 2) (.pyBool false) =
      some (.slice (.asset ("src") 20) 10) ∧
    Seg.durMs (.slice (.asset ("src") 20) 10) = 10 ∧
    ratMin (Seg.durMs (.asset ("src") 20)) (Rat.divInt 21 2) ≠ 10 := by decide

/-- C9: empty and whitespace-only markup parse to an empty section list
(not an error), but the job-level pipeline treats the empty section list
as fatal: `process_audiobook` raises the `ValueError` "No valid sections
found in markup" (modelled `JobError.noSections`) and the job is marked
failed instead of producing an empty render — for every resolver and
synthesiser. -/
theorem C9_empty_markup_parses_empty_but_job_fails :
    parse_audiobook_markup ("") = .ok [] ∧
    parse_audiobook_markup ("   \n\t  ") = .ok [] ∧
    (∀ (fuel : ℕ) (rS rB : PyDict → Option Seg) (synth : String → String → Option Seg),
      process_audiobook fuel rS rB synth ("") = .error .noSections) ∧
    (∀ (fuel : ℕ) (rS rB : PyDict → Option Seg) (synth : String → String → Option Seg),
      process_audiobook fuel rS rB synth ("   \n\t  ") = .error .noSections) := by
  refine ⟨by decide, by decide, fun fuel rS rB synth => ?_, fun fuel rS rB synth => ?_⟩
  · have hp : parse_audiobook_markup ("") = .ok [] := by decide
    unfold process_audiobook
    rw [hp]
    rfl
  · have hp : parse_audiobook_markup ("   \n\t  ") = .ok [] := by decide
    unfold process_audiobook
    rw [hp]
    rfl

/-- C10: a background directive with option `loop:false` stores the
string `"false"`, which is truthy, so the mixer's loop decision
`bg_config.get("loop", True)` still loops the background (the rendered
background event is the concatenation tree `loopedC10`, not a
truncation); looping defaults to enabled when no `loop` option is given;
and a falsy stored value such as `loop:0` (coerced to the number `0`)
disables looping, producing the truncated `slice` rendering instead. -/
theorem C10_loop_false_string_still_loops :
    process_audiobook 10 rSnone rB400 synth1000 inputC10f =
      .ok ([(0, .asset ("Hello") 1000), (0, loopedC10), (1000, .asset ("World") 1000)], 2000) ∧
    process_audiobook 10 rSnone rB400 synth1000 inputC10z =
      .ok ([(0, .asset ("Hello") 1000), (0, .slice (.asset ("m") 400) 1000),
            (1000, .asset ("World") 1000)], 2000) ∧
    pyTruthy (.pyStr ("false")) = true ∧
    dictGet [(("name"), PyVal.pyStr ("m"))] ("loop") (.pyBool true) = .pyBool true := by decide

/-- Truncation of a whole-millisecond rational is exact. -/
theorem pyInt_natCast (n : ℕ) : pyInt ((n : ℕ) : ℚ) = (n : ℤ) := by
  simp [pyInt]

/-- Helper for C7: from an accumulated whole number `a ≤ td` of
milliseconds, with a whole positive source duration, the looping loop of
`create_looped_segment` terminates within `td - a + 1` iterations and
fills the target exactly. -/
theorem loopedAux_whole (fuel : ℕ) (s : Seg) (sd td : ℕ)
    (hs : s.durMs = (sd : ℚ)) (hpos : 0 < sd) :
    ∀ (a : ℕ) (acc : Seg), acc.durMs = (a : ℚ) → a ≤ td → td - a < fuel →
      (loopedAux fuel s (td : ℚ) acc).map Seg.durMs = some ((td : ℚ)) := by
  induction fuel with
  | zero => intro a acc ha hle hf; omega
  | succ n ih =>
    intro a acc ha hle hf
    by_cases hlt : a < td
    · have hcond : acc.durationSeconds < qDivInt (td : ℚ) 1000 := by
        simp only [Seg.durationSeconds, qDivInt_eq, ha]
        push_cast
        rw [div_lt_div_iff_of_pos_right (by norm_num : (0:ℚ) < 1000)]
        exact_mod_cast hlt
      have hrem : qSub (qDivInt (td : ℚ) 1000) acc.durationSeconds =
          ((td - a : ℕ) : ℚ) / 1000 := by
        simp only [Seg.durationSeconds, qDivInt_eq, qSub_eq, ha]
        push_cast [Nat.cast_sub hle]
        rw [div_sub_div_same]
      simp only [loopedAux, hcond, if_true, hrem]
      by_cases hfit : s.durationSeconds ≤ ((td - a : ℕ) : ℚ) / 1000
      · have hfitn : sd ≤ td - a := by
          have h2 := hfit
          simp only [Seg.durationSeconds, hs, qDivInt_eq] at h2
          push_cast at h2
          rw [div_le_div_iff_of_pos_right (by norm_num : (0:ℚ) < 1000)] at h2
          exact_mod_cast h2
        rw [if_pos hfit]
        refine ih (a + sd) (.append acc s) ?_ (by omega) (by omega)
        simp [Seg.durMs, ha, hs]
      · have hfitn : td - a < sd := by
          by_contra hcon
          exact hfit (by
            simp only [Seg.durationSeconds, hs, qDivInt_eq]
            push_cast
            rw [div_le_div_iff_of_pos_right (by norm_num : (0:ℚ) < 1000)]
            exact_mod_cast Nat.le_of_not_lt hcon)
        rw [if_neg hfit]
        have hslice : pyInt (qMulInt (((td - a : ℕ) : ℚ) / 1000) 1000) = ((td - a : ℕ) : ℤ) := by
          rw [qMulInt_eq]
          push_cast
          rw [div_mul_cancel₀ _ (by norm_num : (1000:ℚ) ≠ 0)]
          exact pyInt_natCast (td - a)
        rw [hslice]
        refine ih td (.append acc (.slice s ((td - a : ℕ) : ℤ))) ?_ le_rfl (by omega)
        simp only [Seg.durMs, qAdd_eq, ha, hs, ratMin_eq, ratMax_eq]
        rw [max_eq_left (by positivity), min_eq_right (by exact_mod_cast hfitn.le)]
        rw [Nat.cast_sub hle]
        push_cast
        ring
    · have ha' : a = td := by omega
      have hcond : ¬ (acc.durationSeconds < qDivInt (td : ℚ) 1000) := by
        simp only [Seg.durationSeconds, qDivInt_eq, ha, ha', lt_self_iff_false,
          not_false_iff]
      simp only [loopedAux]
      rw [if_neg hcond]
      simp [ha, ha']

/-- C7 amended: for source and target durations that are whole numbers
of milliseconds (the only durations the pipeline produces, since the
cursor advances by pydub millisecond lengths) and a positive source,
looping concatenates copies of the source, truncating the final
repetition, and the result's duration equals the target; with looping
disabled the result is the source truncated to the shorter of the
source length and the span duration. For fractional targets the claim
fails (see the counterexample): the non-looping branch truncates
`int(duration_ms)` milliseconds, and the looping while-loop does not
terminate once the remainder falls below one millisecond. -/
theorem C7_whole_ms_looping_meets_target (fuel sd td : ℕ) (s : Seg)
    (hs : s.durMs = (sd : ℚ)) (hpos : 0 < sd) (hfuel : td < fuel) :
    (create_looped_segment fuel s ((td : ℕ) : ℚ) (.pyBool true)).map Seg.durMs =
      some (((td : ℕ) : ℚ)) ∧
    (create_looped_segment fuel s ((td : ℕ) : ℚ) (.pyBool false)).map Seg.durMs =
      some (min s.durMs (((td : ℕ) : ℚ))) := by
  constructor
  · have ht : pyTruthy (.pyBool true) = true := rfl
    simp only [create_looped_segment, ht, if_true]
    exact loopedAux_whole fuel s sd td hs hpos 0 .empty rfl (Nat.zero_le td) (by omega)
  · have hf : pyTruthy (.pyBool false) = false := rfl
    simp only [create_looped_segment, hf, Bool.false_eq_true, if_false, Option.map_some',
      pyInt_natCast, Seg.durMs, ratMin_eq, ratMax_eq]
    rw [max_eq_left (by positivity)]
    norm_cast

/-- Witness for C7: a 3 ms source looped to a 7 ms target with fuel 8. -/
theorem C7_whole_ms_looping_meets_target_witness :
    (create_looped_segment 8 (Seg.asset ("a") 3) ((7 : ℕ) : ℚ) (.pyBool true)).map Seg.durMs =
      some (((7 : ℕ) : ℚ)) ∧
    (create_looped_segment 8 (Seg.asset ("a") 3) ((7 : ℕ) : ℚ) (.pyBool false)).map Seg.durMs =
      some (min (Seg.asset ("a") 3).durMs (((7 : ℕ) : ℚ))) :=
  C7_whole_ms_looping_meets_target 8 3 7 (Seg.asset ("a") 3) (by norm_num [Seg.durMs])
    (by norm_num) (by norm_num)

/-- C4 amended: interpreting a single directive body raises
`AudiobookMarkupError` if and only if the body contains no colon, or the
trimmed and lowercased command is not one of `voice`, `sfx`, `bg` (the
code lowercases the command after trimming, so `VOICE:x` is accepted —
see the counterexample); in particular `parse("{{{nope:x}}}text")`
raises the unknown-command error, and every well-formed
`voice`/`sfx`/`bg` body is accepted. -/
theorem C4_markup_error_iff_no_colon_or_unknown_lowered_command :
    (∀ (st : PState) (m : List Char),
      (∃ e, parseMarkupTag st m = .error e) ↔
        (splitOnce ':' m = none ∨ ∃ c, cmdLowered m = some c ∧ c ∉ allowedCommands)) ∧
    parse_audiobook_markup inputC4 = .error (.unknownCommand ("nope")) := by
  refine ⟨fun st m => ?_, by decide⟩
  cases h : splitOnce ':' m with
  | none =>
    simp [parseMarkupTag, cmdLowered, h]
  | some p =>
    obtain ⟨p0, p1⟩ := p
    simp only [parseMarkupTag, cmdLowered, h, Option.map_some]
    split_ifs with h1 h2 h3 h4 <;>
      simp_all [allowedCommands]

/-- Counting background events distributes over timeline concatenation. -/
theorem bgEventCount_append (a b : List (ℚ × Seg)) :
    bgEventCount (a ++ b) = bgEventCount a + bgEventCount b := by
  simp [bgEventCount, List.filter_append]

/-- Closing with no open span appends nothing. -/
theorem closeBg_none (fuel : ℕ) (rB : PyDict → Option Seg) (t : ℚ) :
    closeBg fuel rB none t = some [] := rfl

/-- Closing an open span whose config has a falsy `loop` option (so
`create_looped_segment` truncates instead of looping) emits exactly one
event at the span start, covering `[t0, t1)`. -/
theorem closeBg_loop_falsy (fuel : ℕ) (rB : PyDict → Option Seg) (cfg : PyDict) (bseg : Seg)
    (t0 t1 : ℚ) (hl : pyTruthy (dictGet cfg ("loop") (.pyBool true)) = false)
    (hrb : rB cfg = some bseg) (hbs : segTruthy bseg = true) :
    closeBg fuel rB (some (t0, cfg)) t1 =
      some [(t0, .slice bseg (pyInt (qSub t1 t0)))] := by
  simp [closeBg, hrb, hbs, create_looped_segment, hl]

/-- Helper for C2: with a background span open on `cfg`, a run of
sections all carrying `cfg` (and no sound effects, resolvable voices)
appends exactly one background event per section plus the final close. -/
theorem C2aux (rS rB : PyDict → Option Seg) (synth : String → String → Option Seg)
    (cfg : PyDict) (bseg : Seg)
    (hne : cfg.isEmpty = false)
    (hl : pyTruthy (dictGet cfg ("loop") (.pyBool true)) = false)
    (hrb : rB cfg = some bseg) (hbs : segTruthy bseg = true)
    (hsyn : ∀ t v, ∃ nm d, synth t v = some (.asset nm d)) :
    ∀ (sections : List MarkupSection),
      (∀ s ∈ sections, s.background_audio = some cfg ∧ s.sound_effects = [] ∧
        ∃ v, s.voice = some v ∧ v ≠ "") →
      ∀ (fuel : ℕ) (E0 : List (ℚ × Seg)) (t0 t1 : ℚ),
        ∃ E cur, processSections fuel rS rB synth sections E0 t1 (some (t0, cfg)) =
            .ok (E, cur) ∧
          bgEventCount E = bgEventCount E0 + (sections.length + 1) := by
  intro sections
  induction sections with
  | nil =>
    intro _ fuel E0 t0 t1
    refine ⟨E0 ++ [(t0, .slice bseg (pyInt (qSub t1 t0)))], t1, ?_, ?_⟩
    · simp only [processSections, closeBg_loop_falsy fuel rB cfg bseg t0 t1 hl hrb hbs]
    · simp [bgEventCount_append, bgEventCount, segIsAsset]
  | cons s rest ih =>
    intro hs fuel E0 t0 t1
    obtain ⟨hbgs, hsfx, v, hv, hvne⟩ := hs s (List.mem_cons_self s rest)
    have hrest := fun s' h => hs s' (List.mem_cons_of_mem _ h)
    have hbg : process_background_audio_change fuel rB s (some (t0, cfg)) t1 =
        some ([(t0, .slice bseg (pyInt (qSub t1 t0)))], some (t1, cfg)) := by
      simp only [process_background_audio_change, hbgs, hne, Bool.false_eq_true, if_false,
        closeBg_loop_falsy fuel rB cfg bseg t0 t1 hl hrb hbs, Option.map_some']
    by_cases htext : pyStrip s.text.data = []
    · obtain ⟨E, cur, hrun, hcount⟩ :=
        ih hrest fuel (E0 ++ [(t0, .slice bseg (pyInt (qSub t1 t0)))] ++ []) t1 t1
      refine ⟨E, cur, ?_, ?_⟩
      · simp only [processSections, hbg, hsfx, htext, if_pos]
        exact hrun
      · rw [hcount]
        simp [bgEventCount_append, bgEventCount, segIsAsset, List.length_cons]
        omega
    · obtain ⟨nm, d, hsy⟩ := hsyn s.text v
      have hvoice : generate_voice_audio synth s = .ok (.asset nm d) := by
        simp [generate_voice_audio, hv, hvne, hsy]
      obtain ⟨E, cur, hrun, hcount⟩ :=
        ih hrest fuel
          (E0 ++ [(t0, .slice bseg (pyInt (qSub t1 t0)))] ++ [] ++ [(t1, .asset nm d)])
          t1 (qAdd t1 (Seg.asset nm d).durMs)
      refine ⟨E, cur, ?_, ?_⟩
      · simp only [processSections, hbg, hsfx, htext, if_neg, hvoice]
        exact hrun
      · rw [hcount]
        simp [bgEventCount_append, bgEventCount, segIsAsset, List.length_cons]
        omega

/-- C2 amended: `process_background_audio_change` never compares the
section's background with the previously active one; a boundary is
produced at every section whose background is truthy — the open span is
closed (one event covering only the interval since it was opened) and a
new span opened at the cursor. Hence a run of sections all carrying the
same non-null background yields exactly one background event per
section (the final one closed at the end of sections), not one event
covering the whole run. Hypotheses: the shared config is nonempty with
a falsy `loop` option (so rendering truncates and cannot exhaust fuel),
it resolves to a truthy segment, the synthesiser always returns an
asset, and every section carries that config, no sound effects and a
nonempty voice. -/
theorem C2_background_boundary_every_truthy_section
    (fuel : ℕ) (rS rB : PyDict → Option Seg) (synth : String → String → Option Seg)
    (cfg : PyDict) (bseg : Seg) (sections : List MarkupSection)
    (hne : cfg.isEmpty = false)
    (hl : pyTruthy (dictGet cfg ("loop") (.pyBool true)) = false)
    (hrb : rB cfg = some bseg) (hbs : segTruthy bseg = true)
    (hsyn : ∀ t v, ∃ nm d, synth t v = some (.asset nm d))
    (hs : ∀ s ∈ sections, s.background_audio = some cfg ∧ s.sound_effects = [] ∧
      ∃ v, s.voice = some v ∧ v ≠ "") :
    ∃ E cur, processSections fuel rS rB synth sections [] 0 none = .ok (E, cur) ∧
      bgEventCount E = sections.length := by
  cases sections with
  | nil => exact ⟨[], 0, rfl, rfl⟩
  | cons s rest =>
    obtain ⟨hbgs, hsfx, v, hv, hvne⟩ := hs s (List.mem_cons_self s rest)
    have hrest := fun s' h => hs s' (List.mem_cons_of_mem _ h)
    have hbg : process_background_audio_change fuel rB s none 0 =
        some ([], some (0, cfg)) := by
      simp only [process_background_audio_change, hbgs, hne, Bool.false_eq_true, if_false,
        closeBg_none, Option.map_some']
    by_cases htext : pyStrip s.text.data = []
    · obtain ⟨E, cur, hrun, hcount⟩ :=
        C2aux rS rB synth cfg bseg hne hl hrb hbs hsyn rest hrest fuel ([] ++ [] ++ []) 0 0
      refine ⟨E, cur, ?_, ?_⟩
      · simp only [processSections, hbg, hsfx, htext, if_pos]
        exact hrun
      · rw [hcount]
        simp [bgEventCount]
    · obtain ⟨nm, d, hsy⟩ := hsyn s.text v
      have hvoice : generate_voice_audio synth s = .ok (.asset nm d) := by
        simp [generate_voice_audio, hv, hvne, hsy]
      obtain ⟨E, cur, hrun, hcount⟩ :=
        C2aux rS rB synth cfg bseg hne hl hrb hbs hsyn rest hrest fuel
          ([] ++ [] ++ [] ++ [(0, .asset nm d)]) 0 (qAdd 0 (Seg.asset nm d).durMs)
      refine ⟨E, cur, ?_, ?_⟩
      · simp only [processSections, hbg, hsfx, htext, if_neg, hvoice]
        exact hrun
      · rw [hcount]
        simp [bgEventCount_append, bgEventCount, segIsAsset]

/-- Background config with a falsy loop option, for the C2 witness. -/
def cfgC2w : PyDict := [(("name"), PyVal.pyStr ("m")), (("loop"), PyVal.pyNum 0)]

/-- Two consecutive sections with the same background, for the C2
witness. -/
def sectionsC2w : List MarkupSection :=
  [⟨"A", some ("v"), [], some cfgC2w⟩, ⟨"B", some ("v"), [], some cfgC2w⟩]

/-- Witness for C2: the amended theorem applied to two concrete
sections sharing one background config. -/
theorem C2_background_boundary_every_truthy_section_witness :
    ∃ E cur, processSections 10 rSnone rBC2 synth1000 sectionsC2w [] 0 none = .ok (E, cur) ∧
      bgEventCount E = sectionsC2w.length :=
  C2_background_boundary_every_truthy_section 10 rSnone rBC2 synth1000 cfgC2w
    (.asset ("m") 250) sectionsC2w (by decide) (by decide) rfl (by decide)
    (fun t v => ⟨t, 1000, rfl⟩)
    (by
      intro s h
      simp only [sectionsC2w, List.mem_cons, List.not_mem_nil, or_false] at h
      rcases h with h | h <;> subst h <;>
        exact ⟨rfl, rfl, "v", rfl, by decide⟩)

/-- An abstract scheduling request: the kind of audio an event asks for,
before any asset lookup. -/
inductive Req where
  | voiceReq (seg : Seg)
  | sfxReq (cfg : PyDict)
  | bgReq (cfg : PyDict) (dur : ℚ)
  deriving DecidableEq, Repr

/-- Abstract counterpart of `closeBg`: closing an open background span
emits one background request covering the span. -/
def absCloseReq (active : Option (ℚ × PyDict)) (t : ℚ) : List (ℚ × Req) :=
  match active with
  | none => []
  | some (t0, cfg) => [(t0, .bgReq cfg (qSub t t0))]

/-- Abstract counterpart of `process_background_audio_change`: the emitted
requests and the updated open span, with no resolver involved. -/
def absBgChange (sec : MarkupSection) (active : Option (ℚ × PyDict)) (t : ℚ) :
    List (ℚ × Req) × Option (ℚ × PyDict) :=
  match sec.background_audio with
  | some d => if d.isEmpty then ([], active) else (absCloseReq active t, some (t, d))
  | none =>
    match active with
    | some _ => (absCloseReq active t, none)
    | none => ([], none)

/-- Resolver-independent abstract schedule: the requests the scheduling
loop makes, each with its start time, and the final cursor. Only voice
synthesis can fail here; asset lookups have not happened yet. -/
def absSched (synth : String → String → Option Seg) :
    List MarkupSection → ℚ → Option (ℚ × PyDict) → Except RunError (List (ℚ × Req) × ℚ)
  | [], t, active => .ok (absCloseReq active t, t)
  | sec :: rest, t, active =>
    let bc := absBgChange sec active t
    let sfxEvs := sec.sound_effects.map (fun cfg => (t, Req.sfxReq cfg))
    if pyStrip sec.text.data = [] then
      (absSched synth rest t bc.2).map (fun p => (bc.1 ++ sfxEvs ++ p.1, p.2))
    else
      match generate_voice_audio synth sec with
      | .error e => .error e
      | .ok voiceSeg =>
        (absSched synth rest (qAdd t voiceSeg.durMs) bc.2).map
          (fun p => (bc.1 ++ sfxEvs ++ [(t, .voiceReq voiceSeg)] ++ p.1, p.2))

/-- Resolving one abstract request against the resolvers, mirroring the
concrete code: a failed lookup (or a falsy segment) yields `none` (the
event is skipped), a successful lookup yields the placed segment, and only
the in-code error paths (bad `start_at` type, non-terminating loop builder)
error. -/
def resolveOneE (fuel : ℕ) (rS rB : PyDict → Option Seg) :
    ℚ × Req → Except RunError (Option (ℚ × Seg))
  | (t, .voiceReq seg) => .ok (some (t, seg))
  | (t, .sfxReq cfg) =>
    match rS cfg with
    | none => .ok none
    | some seg =>
      if segTruthy seg then
        match pyTimes1000 (dictGet cfg ("start_at") (.pyNum 0)) with
        | none => .error .typeErr
        | some off => .ok (some (qAdd t off, seg))
      else .ok none
  | (t0, .bgReq cfg dur) =>
    match rB cfg with
    | none => .ok none
    | some seg =>
      if segTruthy seg then
        match create_looped_segment fuel seg dur (dictGet cfg ("loop") (.pyBool true)) with
        | none => .error .fuelOut
        | some l => .ok (some (t0, l))
      else .ok none

/-- Resolving a list of abstract requests in order, keeping the successful
ones. -/
def resolveEvents (fuel : ℕ) (rS rB : PyDict → Option Seg) :
    List (ℚ × Req) → Except RunError (List (ℚ × Seg))
  | [] => .ok []
  | ev :: rest =>
    match resolveOneE fuel rS rB ev with
    | .error e => .error e
    | .ok none => resolveEvents fuel rS rB rest
    | .ok (some p) => (resolveEvents fuel rS rB rest).map (fun l => p :: l)

/-- Total per-event resolution: the placed event, or `none` when the event
is skipped or its resolution errors. -/
def resolveOne (fuel : ℕ) (rS rB : PyDict → Option Seg) (ev : ℚ × Req) : Option (ℚ × Seg) :=
  match resolveOneE fuel rS rB ev with
  | .ok o => o
  | .error _ => none

theorem resolveEvents_append (fuel : ℕ) (rS rB : PyDict → Option Seg) :
    ∀ (l1 l2 : List (ℚ × Req)),
    resolveEvents fuel rS rB (l1 ++ l2) =
      match resolveEvents fuel rS rB l1 with
      | .error e => .error e
      | .ok a => (resolveEvents fuel rS rB l2).map (fun b => a ++ b) := by
  intro l1
  induction l1 with
  | nil =>
    intro l2
    simp only [List.nil_append, resolveEvents]
    cases h2 : resolveEvents fuel rS rB l2 <;> simp [Except.map]
  | cons ev rest ih =>
    intro l2
    simp only [List.cons_append, resolveEvents]
    cases h1 : resolveOneE fuel rS rB ev with
    | error e => rfl
    | ok o =>
      cases o with
      | none =>
        dsimp only
        simp only [List.append_eq]
        exact ih l2
      | some p =>
        dsimp only
        simp only [List.append_eq]
        rw [ih l2]
        cases hr : resolveEvents fuel rS rB rest <;>
          cases h2 : resolveEvents fuel rS rB l2 <;> simp [Except.map]

theorem processSfx_eq_resolve (fuel : ℕ) (rS rB : PyDict → Option Seg) :
    ∀ (cfgs : List PyDict) (t : ℚ),
    processSfx rS cfgs t =
      resolveEvents fuel rS rB (cfgs.map (fun cfg => (t, Req.sfxReq cfg))) := by
  intro cfgs
  induction cfgs with
  | nil => intro t; rfl
  | cons cfg rest ih =>
    intro t
    simp only [processSfx, List.map_cons, resolveEvents, resolveOneE]
    cases hc : rS cfg with
    | none => exact ih t
    | some seg =>
      dsimp only
      by_cases ht : segTruthy seg = true
      · rw [if_pos ht, if_pos ht]
        cases hst : pyTimes1000 (dictGet cfg ("start_at") (.pyNum 0)) with
        | none => rfl
        | some off =>
          dsimp only
          rw [ih t]
      · rw [if_neg ht, if_neg ht]
        exact ih t

theorem closeBg_eq_resolve (fuel : ℕ) (rS rB : PyDict → Option Seg)
    (active : Option (ℚ × PyDict)) (t : ℚ) :
    (match closeBg fuel rB active t with
     | none => (Except.error RunError.fuelOut : Except RunError (List (ℚ × Seg)))
     | some L => .ok L) = resolveEvents fuel rS rB (absCloseReq active t) := by
  cases active with
  | none => rfl
  | some p =>
    obtain ⟨t0, cfg⟩ := p
    simp only [closeBg, absCloseReq, resolveEvents, resolveOneE]
    cases hc : rB cfg with
    | none => rfl
    | some seg =>
      dsimp only
      by_cases ht : segTruthy seg = true
      · rw [if_pos ht, if_pos ht]
        cases hcl : create_looped_segment fuel seg (qSub t t0)
            (dictGet cfg ("loop") (.pyBool true)) with
        | none => rfl
        | some l => rfl
      · rw [if_neg ht, if_neg ht]

theorem bgChange_eq_resolve (fuel : ℕ) (rS rB : PyDict → Option Seg)
    (sec : MarkupSection) (active : Option (ℚ × PyDict)) (t : ℚ) :
    (match process_background_audio_change fuel rB sec active t with
     | none => (Except.error RunError.fuelOut :
         Except RunError (List (ℚ × Seg) × Option (ℚ × PyDict)))
     | some p => .ok p) =
      (resolveEvents fuel rS rB (absBgChange sec active t).1).map
        (fun L => (L, (absBgChange sec active t).2)) := by
  cases hbga : sec.background_audio with
  | some d =>
    simp only [process_background_audio_change, absBgChange, hbga]
    by_cases hd : d.isEmpty
    · rw [if_pos hd, if_pos hd]
      rfl
    · rw [if_neg hd, if_neg hd]
      rw [← closeBg_eq_resolve fuel rS rB active t]
      cases hcl : closeBg fuel rB active t <;> simp [Except.map]
  | none =>
    cases active with
    | none =>
      simp only [process_background_audio_change, absBgChange, hbga]
      rfl
    | some p =>
      simp only [process_background_audio_change, absBgChange, hbga]
      rw [← closeBg_eq_resolve fuel rS rB (some p) t]
      cases hcl : closeBg fuel rB (some p) t <;> simp [Except.map]

theorem exceptMap_ok_inv {α β ε : Type} {f : α → β} {x : Except ε α} {y : β}
    (h : Except.map f x = .ok y) : ∃ a, x = .ok a ∧ y = f a := by
  cases x with
  | error e => simp [Except.map] at h
  | ok a =>
    simp only [Except.map, Except.ok.injEq] at h
    exact ⟨a, rfl, h.symm⟩

theorem processSections_eq_resolve (fuel : ℕ) (rS rB : PyDict → Option Seg)
    (synth : String → String → Option Seg) :
    ∀ (sections : List MarkupSection) (E0 : List (ℚ × Seg)) (t : ℚ)
      (active : Option (ℚ × PyDict)) (abs : List (ℚ × Req)) (cur : ℚ),
    absSched synth sections t active = .ok (abs, cur) →
    processSections fuel rS rB synth sections E0 t active =
      (resolveEvents fuel rS rB abs).map (fun L => (E0 ++ L, cur)) := by
  intro sections
  induction sections with
  | nil =>
    intro E0 t active abs cur habs
    simp only [absSched, Except.ok.injEq, Prod.mk.injEq] at habs
    obtain ⟨h1, h2⟩ := habs
    subst h1
    subst h2
    have heq := closeBg_eq_resolve fuel rS rB active t
    cases hcl : closeBg fuel rB active t with
    | none =>
      rw [hcl] at heq
      simp only [processSections, hcl, ← heq, Except.map]
    | some L =>
      rw [hcl] at heq
      simp only [processSections, hcl, ← heq, Except.map]
  | cons sec rest ih =>
    intro E0 t active abs cur habs
    simp only [absSched] at habs
    have hbgeq := bgChange_eq_resolve fuel rS rB sec active t
    by_cases htext : pyStrip sec.text.data = []
    · rw [if_pos htext] at habs
      obtain ⟨⟨p1, p2⟩, hrec, habs2⟩ := exceptMap_ok_inv habs
      simp only [Prod.mk.injEq] at habs2
      obtain ⟨habs3, hcur⟩ := habs2
      subst habs3
      subst hcur
      simp only [processSections]
      cases hbg : process_background_audio_change fuel rB sec active t with
      | none =>
        rw [hbg] at hbgeq
        have hb1 : resolveEvents fuel rS rB (absBgChange sec active t).1 = .error .fuelOut := by
          cases hx : resolveEvents fuel rS rB (absBgChange sec active t).1 <;>
            rw [hx] at hbgeq <;> simp_all [Except.map]
        rw [resolveEvents_append, resolveEvents_append, hb1]
        rfl
      | some q =>
        obtain ⟨L1, a2⟩ := q
        rw [hbg] at hbgeq
        obtain ⟨L1b, hb1, hq⟩ := exceptMap_ok_inv hbgeq.symm
        simp only [Prod.mk.injEq] at hq
        obtain ⟨hL1, ha2⟩ := hq
        subst hL1
        subst ha2
        dsimp only
        cases hsfx : processSfx rS sec.sound_effects t with
        | error e =>
          rw [processSfx_eq_resolve fuel rS rB] at hsfx
          rw [resolveEvents_append, resolveEvents_append, hb1]
          dsimp only
          rw [hsfx]
          rfl
        | ok L2 =>
          have hsfx2 := hsfx
          rw [processSfx_eq_resolve fuel rS rB] at hsfx2
          dsimp only
          rw [if_pos htext]
          rw [ih (E0 ++ L1 ++ L2) t _ p1 cur hrec]
          rw [resolveEvents_append, resolveEvents_append, hb1]
          dsimp only
          rw [hsfx2]
          cases hp1 : resolveEvents fuel rS rB p1 <;>
            simp [Except.map, List.append_assoc]
    · rw [if_neg htext] at habs
      cases hv : generate_voice_audio synth sec with
      | error e =>
        rw [hv] at habs
        cases habs
      | ok vseg =>
        rw [hv] at habs
        dsimp only at habs
        obtain ⟨⟨p1, p2⟩, hrec, habs2⟩ := exceptMap_ok_inv habs
        simp only [Prod.mk.injEq] at habs2
        obtain ⟨habs3, hcur⟩ := habs2
        subst habs3
        subst hcur
        simp only [processSections]
        cases hbg : process_background_audio_change fuel rB sec active t with
        | none =>
          rw [hbg] at hbgeq
          have hb1 : resolveEvents fuel rS rB (absBgChange sec active t).1 =
              .error .fuelOut := by
            cases hx : resolveEvents fuel rS rB (absBgChange sec active t).1 <;>
              rw [hx] at hbgeq <;> simp_all [Except.map]
          rw [resolveEvents_append, resolveEvents_append, resolveEvents_append, hb1]
          rfl
        | some q =>
          obtain ⟨L1, a2⟩ := q
          rw [hbg] at hbgeq
          obtain ⟨L1b, hb1, hq⟩ := exceptMap_ok_inv hbgeq.symm
          simp only [Prod.mk.injEq] at hq
          obtain ⟨hL1, ha2⟩ := hq
          subst hL1
          subst ha2
          dsimp only
          cases hsfx : processSfx rS sec.sound_effects t with
          | error e =>
            rw [processSfx_eq_resolve fuel rS rB] at hsfx
            rw [resolveEvents_append, resolveEvents_append, resolveEvents_append, hb1]
            dsimp only
            rw [hsfx]
            rfl
          | ok L2 =>
            have hsfx2 := hsfx
            rw [processSfx_eq_resolve fuel rS rB] at hsfx2
            dsimp only
            rw [if_neg htext, hv]
            dsimp only
            rw [ih (E0 ++ L1 ++ L2 ++ [(t, vseg)]) (qAdd t vseg.durMs) _ p1 cur hrec]
            rw [resolveEvents_append, resolveEvents_append, resolveEvents_append, hb1]
            dsimp only
            rw [hsfx2]
            have hvr : resolveEvents fuel rS rB [(t, Req.voiceReq vseg)] =
                .ok [(t, vseg)] := rfl
            rw [hvr]
            cases hp1 : resolveEvents fuel rS rB p1 <;>
              simp [Except.map, List.append_assoc]

theorem resolveEvents_all_ok {fuel : ℕ} {rS rB : PyDict → Option Seg} :
    ∀ {l : List (ℚ × Req)} {E : List (ℚ × Seg)},
    resolveEvents fuel rS rB l = .ok E →
    ∀ ev ∈ l, ∃ o, resolveOneE fuel rS rB ev = .ok o := by
  intro l
  induction l with
  | nil => intro E h ev hm; cases hm
  | cons a rest ih =>
    intro E h ev hm
    simp only [resolveEvents] at h
    cases h1 : resolveOneE fuel rS rB a with
    | error e => rw [h1] at h; cases h
    | ok o =>
      rw [h1] at h
      cases hm with
      | head => exact ⟨o, h1⟩
      | tail _ hm2 =>
        cases o with
        | none =>
          dsimp only at h
          exact ih h ev hm2
        | some p =>
          dsimp only at h
          obtain ⟨E1, hE1, hq⟩ := exceptMap_ok_inv h
          exact ih hE1 ev hm2

theorem resolveEvents_noerror {fuel : ℕ} {rS rB : PyDict → Option Seg} :
    ∀ {l : List (ℚ × Req)},
    (∀ ev ∈ l, ∃ o, resolveOneE fuel rS rB ev = .ok o) →
    resolveEvents fuel rS rB l = .ok (l.filterMap (resolveOne fuel rS rB)) := by
  intro l
  induction l with
  | nil => intro h2; rfl
  | cons a rest ih =>
    intro hall
    obtain ⟨o, ho⟩ := hall a (List.mem_cons_self a rest)
    have hrest := ih (fun ev hm => hall ev (List.mem_cons_of_mem a hm))
    have hro : resolveOne fuel rS rB a = o := by
      simp [resolveOne, ho]
    simp only [resolveEvents, List.filterMap_cons, ho, hro]
    cases o with
    | none =>
      dsimp only
      exact hrest
    | some p =>
      dsimp only
      rw [hrest]
      rfl

theorem resolveEvents_ok_filterMap {fuel : ℕ} {rS rB : PyDict → Option Seg}
    {l : List (ℚ × Req)} {E : List (ℚ × Seg)}
    (h : resolveEvents fuel rS rB l = .ok E) :
    E = l.filterMap (resolveOne fuel rS rB) := by
  have h2 := resolveEvents_noerror (resolveEvents_all_ok h)
  rw [h] at h2
  injection h2

theorem resolveOneE_primed_ok {fuel : ℕ} {rS rB rS2 rB2 : PyDict → Option Seg}
    (hS : ∀ c, rS2 c = rS c ∨ rS2 c = none)
    (hB : ∀ c, rB2 c = rB c ∨ rB2 c = none)
    {ev : ℚ × Req} {o : Option (ℚ × Seg)}
    (h : resolveOneE fuel rS rB ev = .ok o) :
    ∃ o2, resolveOneE fuel rS2 rB2 ev = .ok o2 := by
  obtain ⟨t, req⟩ := ev
  cases req with
  | voiceReq seg => exact ⟨some (t, seg), rfl⟩
  | sfxReq cfg =>
    simp only [resolveOneE] at h ⊢
    rcases hS cfg with h2 | h2
    · rw [h2]
      exact ⟨o, h⟩
    · rw [h2]
      exact ⟨none, rfl⟩
  | bgReq cfg dur =>
    simp only [resolveOneE] at h ⊢
    rcases hB cfg with h2 | h2
    · rw [h2]
      exact ⟨o, h⟩
    · rw [h2]
      exact ⟨none, rfl⟩

theorem resolveOne_sub {fuel : ℕ} {rS rB rS2 rB2 : PyDict → Option Seg}
    (hS : ∀ c, rS2 c = rS c ∨ rS2 c = none)
    (hB : ∀ c, rB2 c = rB c ∨ rB2 c = none) (ev : ℚ × Req) :
    resolveOne fuel rS2 rB2 ev = none ∨
      resolveOne fuel rS2 rB2 ev = resolveOne fuel rS rB ev := by
  obtain ⟨t, req⟩ := ev
  cases req with
  | voiceReq seg => exact Or.inr rfl
  | sfxReq cfg =>
    rcases hS cfg with h2 | h2
    · right
      simp only [resolveOne, resolveOneE, h2]
    · left
      simp only [resolveOne, resolveOneE, h2]
  | bgReq cfg dur =>
    rcases hB cfg with h2 | h2
    · right
      simp only [resolveOne, resolveOneE, h2]
    · left
      simp only [resolveOne, resolveOneE, h2]

theorem filterMap_sublist_of_sub {α β : Type} (f g : α → Option β) :
    ∀ (l : List α), (∀ a ∈ l, f a = none ∨ f a = g a) →
    (l.filterMap f).Sublist (l.filterMap g) := by
  intro l
  induction l with
  | nil => intro h2; exact List.Sublist.refl []
  | cons a rest ih =>
    intro hall
    have hrest := ih (fun x hx => hall x (List.mem_cons_of_mem a hx))
    rcases hall a (List.mem_cons_self a rest) with h2 | h2
    · rw [List.filterMap_cons, List.filterMap_cons, h2]
      cases hg : g a with
      | none => exact hrest
      | some b =>
        dsimp only
        exact hrest.cons b
    · rw [List.filterMap_cons, List.filterMap_cons, h2]
      cases hg : g a with
      | none => exact hrest
      | some b =>
        dsimp only
        exact hrest.cons₂ b

theorem absSched_error_processSections (fuel : ℕ) (rS rB : PyDict → Option Seg)
    (synth : String → String → Option Seg) :
    ∀ (sections : List MarkupSection) (t : ℚ) (active : Option (ℚ × PyDict)) (e : RunError),
    absSched synth sections t active = .error e →
    ∀ (E0 : List (ℚ × Seg)) (E : List (ℚ × Seg)) (cur : ℚ),
    processSections fuel rS rB synth sections E0 t active ≠ .ok (E, cur) := by
  intro sections
  induction sections with
  | nil =>
    intro t active e habs
    cases habs
  | cons sec rest ih =>
    intro t active e habs E0 E cur hrun
    simp only [absSched] at habs
    simp only [processSections] at hrun
    cases hbg : process_background_audio_change fuel rB sec active t with
    | none =>
      rw [hbg] at hrun
      cases hrun
    | some q =>
      obtain ⟨L1, a2⟩ := q
      rw [hbg] at hrun
      dsimp only at hrun
      have hbgeq := bgChange_eq_resolve fuel rS rB sec active t
      rw [hbg] at hbgeq
      obtain ⟨L1b, hb1, hq⟩ := exceptMap_ok_inv hbgeq.symm
      simp only [Prod.mk.injEq] at hq
      obtain ⟨hL1, ha2⟩ := hq
      cases hsfx : processSfx rS sec.sound_effects t with
      | error e2 =>
        rw [hsfx] at hrun
        cases hrun
      | ok L2 =>
        rw [hsfx] at hrun
        dsimp only at hrun
        by_cases htext : pyStrip sec.text.data = []
        · rw [if_pos htext] at hrun habs
          have habs2 : absSched synth rest t (absBgChange sec active t).2 = .error e := by
            cases hx : absSched synth rest t (absBgChange sec active t).2 <;>
              rw [hx] at habs <;> simp_all [Except.map]
          rw [ha2] at hrun
          exact ih t _ e habs2 _ E cur hrun
        · rw [if_neg htext] at hrun habs
          cases hv : generate_voice_audio synth sec with
          | error e2 =>
            rw [hv] at hrun
            cases hrun
          | ok vseg =>
            rw [hv] at hrun habs
            dsimp only at hrun habs
            have habs2 : absSched synth rest (qAdd t vseg.durMs)
                (absBgChange sec active t).2 = .error e := by
              cases hx : absSched synth rest (qAdd t vseg.durMs) (absBgChange sec active t).2 <;>
                rw [hx] at habs <;> simp_all [Except.map]
            rw [ha2] at hrun
            exact ih (qAdd t vseg.durMs) _ e habs2 _ E cur hrun

/-- Sound-effect resolver that finds a 300 ms door asset. -/
def rSdoor : PyDict → Option Seg := fun _ => some (.asset ("door") 300)

/-- A section carrying one sound-effect config, for the C8 witness. -/
def sectionsC8w : List MarkupSection :=
  [⟨"Hi", some ("v"), [[(("id"), PyVal.pyStr ("door"))]], none⟩]

/-- C8: if sound-effect or background asset lookups fail during rendering,
only those single events are skipped and the render still completes. For
any run that succeeds under resolvers `rS`, `rB`: the scheduling loop
refines the resolver-independent abstract schedule `absSched`, the
baseline event list is exactly the per-event resolution of that schedule,
and under resolvers that fail on some configs and agree elsewhere the run
still succeeds (lookup failures never abort the job — only voice synthesis
and missing-voice errors, or the parse stage upstream, can), ends at the
same cursor (the timeline is not shifted by a missing asset), and produces
exactly the per-event resolution of the same schedule — an
order-preserving sublist of the baseline events in which every event whose
lookup succeeds is retained with its start time unchanged, pinning the
retention lower bound: an event is dropped only when its own lookup fails. -/
theorem C8_asset_lookup_failures_skip_events_only
    (fuel : ℕ) (synth : String → String → Option Seg)
    (sections : List MarkupSection) (rS rB rS2 rB2 : PyDict → Option Seg)
    (hS : ∀ c, rS2 c = rS c ∨ rS2 c = none)
    (hB : ∀ c, rB2 c = rB c ∨ rB2 c = none)
    (E : List (ℚ × Seg)) (cur : ℚ)
    (h : processSections fuel rS rB synth sections [] 0 none = .ok (E, cur)) :
    ∃ evs, absSched synth sections 0 none = .ok (evs, cur) ∧
      E = evs.filterMap (resolveOne fuel rS rB) ∧
      processSections fuel rS2 rB2 synth sections [] 0 none =
        .ok (evs.filterMap (resolveOne fuel rS2 rB2), cur) ∧
      (evs.filterMap (resolveOne fuel rS2 rB2)).Sublist E ∧
      ∀ ev ∈ evs, ∀ p, resolveOne fuel rS2 rB2 ev = some p →
        p ∈ evs.filterMap (resolveOne fuel rS2 rB2) := by
  cases habs : absSched synth sections 0 none with
  | error e =>
    exact absurd h (absSched_error_processSections fuel rS rB synth sections 0 none e habs [] E cur)
  | ok q =>
    obtain ⟨evs, c⟩ := q
    have heq := processSections_eq_resolve fuel rS rB synth sections [] 0 none evs c habs
    rw [heq] at h
    obtain ⟨E1, hE1, hq⟩ := exceptMap_ok_inv h
    simp only [Prod.mk.injEq, List.nil_append] at hq
    obtain ⟨hE, hcur⟩ := hq
    subst hcur
    have hall := resolveEvents_all_ok hE1
    have hEfm : E = evs.filterMap (resolveOne fuel rS rB) := by
      rw [hE]
      exact resolveEvents_ok_filterMap hE1
    have hall2 : ∀ ev ∈ evs, ∃ o, resolveOneE fuel rS2 rB2 ev = .ok o := by
      intro ev hm
      obtain ⟨o, ho⟩ := hall ev hm
      exact resolveOneE_primed_ok hS hB ho
    have h2 : resolveEvents fuel rS2 rB2 evs =
        .ok (evs.filterMap (resolveOne fuel rS2 rB2)) :=
      resolveEvents_noerror hall2
    have heq2 := processSections_eq_resolve fuel rS2 rB2 synth sections [] 0 none evs cur habs
    refine ⟨evs, rfl, hEfm, ?_, ?_, ?_⟩
    · rw [heq2, h2]
      rfl
    · rw [hEfm]
      exact filterMap_sublist_of_sub _ _ evs (fun a hm => resolveOne_sub hS hB a)
    · intro ev hm p hp
      exact List.mem_filterMap.mpr ⟨ev, hm, hp⟩

/-- Witness for C8: one section with a door sound effect. The baseline run
schedules the door effect and the voice; with the sound-effect lookup
failing, the theorem applies and the degraded run is pinned concretely to
exactly the voice event — the voice is retained at its original start time
and only the failing effect is dropped, with the cursor still 1000. -/
theorem C8_asset_lookup_failures_skip_events_only_witness :
    (∃ evs, absSched synth1000 sectionsC8w 0 none = .ok (evs, 1000) ∧
      [((0 : ℚ), Seg.asset ("door") 300), (0, Seg.asset ("Hi") 1000)] =
        evs.filterMap (resolveOne 10 rSdoor rB400) ∧
      processSections 10 rSnone rB400 synth1000 sectionsC8w [] 0 none =
        .ok (evs.filterMap (resolveOne 10 rSnone rB400), 1000) ∧
      (evs.filterMap (resolveOne 10 rSnone rB400)).Sublist
        [(0, Seg.asset ("door") 300), (0, Seg.asset ("Hi") 1000)] ∧
      ∀ ev ∈ evs, ∀ p, resolveOne 10 rSnone rB400 ev = some p →
        p ∈ evs.filterMap (resolveOne 10 rSnone rB400)) ∧
    processSections 10 rSnone rB400 synth1000 sectionsC8w [] 0 none =
      .ok ([((0 : ℚ), Seg.asset ("Hi") 1000)], 1000) :=
  ⟨C8_asset_lookup_failures_skip_events_only 10 synth1000 sectionsC8w rSdoor rB400 rSnone rB400
      (fun c2 => Or.inr rfl) (fun c2 => Or.inl rfl)
      [(0, .asset ("door") 300), (0, .asset ("Hi") 1000)] 1000 (by decide),
    by decide⟩
